import Mathlib

/-!
Shallow embedding of `jpy_tools/singleCellTools/diffxpy.py`.

The module reshapes annotated expression collections (AnnData) into the
format expected by an external Wald-test engine, dispatches one-vs-rest and
pairwise group comparisons, and post-filters the accumulated result tables
into marker tables.

Modelling conventions:
* an expression collection (`anndata.AnnData`) is a matrix of cells × genes
  over `Rat` together with a per-cell annotation table (an association list
  of named columns per cell), a sparsity flag, and a metadata store `uns`;
* pandas data frames holding per-gene test results are lists of rows; the
  optional tag columns (`clusterName`, `testedCluster`, `bgCluster`) that
  `getMarker` inserts are `Option`-valued fields, absent (`none`) in every
  table produced by the engine;
* the external Wald-test engine (`diffxpy.api.test.wald` + `.summary()`)
  is an opaque parameter `wald : WaldInput → Df`: the embedding passes it
  exactly the data the Python call hands over (matrix, genes, the factor
  column, the batch column, the formula string and options);
* Python mutation is explicit state passing: functions that mutate the
  caller's collection return the new collection; exceptions are `Except`.
-/

namespace DiffxpyModel

/-- A value stored in one annotation-table cell: pandas columns here hold
either strings (group labels, the binary `"1"`/`"0"` encoding) or booleans
(the `keep` column written by the no-subset path). -/
inductive ColVal where
  | str : String → ColVal
  | flag : Bool → ColVal
deriving DecidableEq

/-- One cell's annotation row: an association list of named columns. -/
abbrev ObsRow := List (String × ColVal)

/-- Read a column of an annotation row (pandas `adata.obs[c]` for one cell). -/
def getColVal (r : ObsRow) (c : String) : Option ColVal :=
  (r.find? (fun p => p.1 == c)).map Prod.snd

/-- Read a string column, defaulting to `""` when absent (the Python code
only reads columns it knows are present). -/
def getStr (r : ObsRow) (c : String) : String :=
  match getColVal r c with
  | some (ColVal.str s) => s
  | _ => ""

/-- Read a boolean column, defaulting to `false` when absent. -/
def getFlag (r : ObsRow) (c : String) : Bool :=
  match getColVal r c with
  | some (ColVal.flag b) => b
  | _ => false

/-- pandas column assignment (`df.assign(c << v)` / `df[c] = v` for one row):
replaces the column when present, adds it otherwise.  Column position within
the row is irrelevant to every lookup, so the replaced column is moved to the
end rather than kept in place. -/
def assignCol (r : ObsRow) (c : String) (v : ColVal) : ObsRow :=
  (r.filter (fun p => p.1 != c)) ++ [(c, v)]

/-- One row of a per-gene result table (`test.summary()` columns the module
uses: `gene`, `qval`, `log2fc`, `mean`, `coef_mle`), plus the three tag
columns `getMarker` may insert, absent when the engine produced the table. -/
structure DfRow where
  clusterName : Option String
  testedCluster : Option String
  bgCluster : Option String
  gene : String
  qval : Rat
  log2fc : Rat
  mean : Rat
  coef_mle : Rat
deriving DecidableEq

/-- A per-gene result table. -/
abbrev Df := List DfRow

/-- A value of the metadata-store mapping built by the dispatchers: the
`"__cat"` discriminator string or a result table. -/
inductive UnsVal where
  | str : String → UnsVal
  | df : Df → UnsVal
deriving DecidableEq

/-- The metadata-store entry written by `vsRest`/`pairWise`: a Python dict,
modelled as an insertion-ordered association list. -/
abbrev DeResult := List (String × UnsVal)

/-- Python dict assignment `d[k] = v`: replace in place when the key exists,
append otherwise (insertion order preserved). -/
def updateEntry {α : Type} (m : List (String × α)) (k : String) (v : α) :
    List (String × α) :=
  if m.any (fun p => p.1 == k) then
    m.map (fun p => if p.1 == k then (k, v) else p)
  else
    m ++ [(k, v)]

/-- Python dict lookup `d[k]`, `none` when the key is absent. -/
def lookupEntry {α : Type} (m : List (String × α)) (k : String) : Option α :=
  (m.find? (fun p => p.1 == k)).map Prod.snd

/-- Helper for `uniqueFirst`: drop the elements already `seen`. -/
def uniqueFirstAux {α : Type} [DecidableEq α] : List α → List α → List α
  | [], _ => []
  | a :: rest, seen =>
      if a ∈ seen then uniqueFirstAux rest seen
      else a :: uniqueFirstAux rest (a :: seen)

/-- pandas `Series.unique()`: distinct values in order of first appearance. -/
def uniqueFirst {α : Type} [DecidableEq α] (l : List α) : List α :=
  uniqueFirstAux l []

/-- Keep the elements of `xs` whose position is `true` in the mask `m`
(numpy boolean indexing). -/
def maskList {α : Type} (xs : List α) (m : List Bool) : List α :=
  ((xs.zip m).filter (fun p => p.2)).map Prod.fst

/-- An expression collection: genes (column names), one annotation row and
one matrix row per cell, a sparsity flag for the matrix, and the metadata
store `uns`. -/
structure AdM where
  genes : List String
  obsRows : List ObsRow
  X : List (List Rat)
  sparse : Bool
  uns : List (String × DeResult)
deriving DecidableEq

/-- Distinct values of an annotation column (`adata.obs[c].unique()`). -/
def uniqueVals (ad : AdM) (c : String) : List String :=
  uniqueFirst (ad.obsRows.map (fun r => getStr r c))

/-- Subset the cells of a collection by a predicate on the annotation row
(`adata[mask]` where the mask comes from the annotation table). -/
def subsetCells (ad : AdM) (p : ObsRow → Bool) : AdM :=
  let kept := (ad.obsRows.zip ad.X).filter (fun rc => p rc.1)
  { genes := ad.genes
    obsRows := kept.map Prod.fst
    X := kept.map Prod.snd
    sparse := ad.sparse
    uns := ad.uns }

/-- Subset the cells of a collection by a positional boolean mask. -/
def subsetCellsMask (ad : AdM) (m : List Bool) : AdM :=
  { genes := ad.genes
    obsRows := maskList ad.obsRows m
    X := maskList ad.X m
    sparse := ad.sparse
    uns := ad.uns }

/-- Keep the genes (matrix columns) selected by the mask. -/
def subsetGenes (ad : AdM) (keep : List Bool) : AdM :=
  { genes := maskList ad.genes keep
    obsRows := ad.obsRows
    X := ad.X.map (fun row => maskList row keep)
    sparse := ad.sparse
    uns := ad.uns }

/-- Entry `j` of a matrix row (0 outside the row, never reached on
well-formed data). -/
def colEntry (row : List Rat) (j : Nat) : Rat := row.getD j 0

/-- Number of cells in which gene `j` is detected (expression `> 0`), as
`scanpy.pp.filter_genes` counts them for its `min_cells` cutoff. -/
def geneNonzeroCells (X : List (List Rat)) (j : Nat) : Nat :=
  (X.map (fun row => colEntry row j)).countP (fun x => decide (0 < x))

/-- The gene mask of `sc.pp.filter_genes(adata, min_cells=minCellCounts)`:
keep genes detected in at least `minCellCounts` cells. -/
def filterGenesMask (ad : AdM) (minCells : Nat) : List Bool :=
  (List.range ad.genes.length).map
    (fun j => decide (minCells ≤ geneNonzeroCells ad.X j))

/-- `sc.pp.filter_genes(adata, min_cells=minCells)`. -/
def filterGenes (ad : AdM) (minCells : Nat) : AdM :=
  subsetGenes ad (filterGenesMask ad minCells)

/-- Assign a computed annotation column to every cell
(`adata.obs = adata.obs.assign(...)`). -/
def assignColAll (ad : AdM) (c : String) (f : ObsRow → ColVal) : AdM :=
  { genes := ad.genes
    obsRows := ad.obsRows.map (fun r => assignCol r c (f r))
    X := ad.X
    sparse := ad.sparse
    uns := ad.uns }

/-- `parseAdToDiffxpyFormat` (the Format Adapter, source lines 33-64).

`otherComp` is `none` for the Python `None` default; the Python call sites
that pass a single string are modelled as a one-element list (the source
coerces a string to `[otherComp]`); a `some []` argument is falsy in Python
and hits the same default branch as `None`. -/
def parseAdToDiffxpyFormat (ad : AdM) (testLabel testComp : String)
    (otherComp : Option (List String)) (batchLabel : Option String)
    (minCellCounts : Nat) (keyAdded : String) (subsetFlag : Bool) : AdM :=
  let others : List String :=
    match otherComp with
    | none => (uniqueVals ad testLabel).filter (fun x => x ≠ testComp)
    | some [] => (uniqueVals ad testLabel).filter (fun x => x ≠ testComp)
    | some l => l
  let ad1 :=
    if subsetFlag then
      filterGenes
        (subsetCells ad (fun r => (testComp :: others).contains (getStr r testLabel)))
        minCellCounts
    else
      assignColAll ad "keep"
        (fun r => ColVal.flag ((testComp :: others).contains (getStr r testLabel)))
  let ad2 := assignColAll ad1 keyAdded
    (fun r => ColVal.str (if getStr r testLabel == testComp then "1" else "0"))
  match batchLabel with
  | none => ad2
  | some b =>
      assignColAll ad2 (b ++ "_" ++ keyAdded)
        (fun r => ColVal.str (getStr r b ++ "_" ++ getStr r keyAdded))

/-- The model formula `testTwoSample` builds for the engine. -/
def formulaOf (keyTest : String) (batchLabel : Option String)
    (constrainModel : Bool) : String :=
  match batchLabel with
  | some b =>
      if constrainModel then "~ 1 + " ++ keyTest ++ " + " ++ b ++ "_" ++ keyTest
      else "~ 1 + " ++ keyTest ++ " + " ++ b ++ ":" ++ keyTest
  | none => "~ 1 + " ++ keyTest

/-- Everything the Python code hands to `de.test.wald(...)`: the data
matrix with its genes, the factor-of-interest column values, the batch
column values when a batch label is given, the formula string and the
options. -/
structure WaldInput where
  genes : List String
  X : List (List Rat)
  testVals : List String
  batchVals : Option (List String)
  formula : String
  quickScale : Bool
  sizeFactors : Option String
deriving DecidableEq

/-- The argument record `testTwoSample` hands the external engine. -/
def waldInputOf (ad : AdM) (keyTest : String) (batchLabel : Option String)
    (quickScale : Bool) (sizeFactor : Option String) (constrainModel : Bool) :
    WaldInput :=
  { genes := ad.genes
    X := ad.X
    testVals := ad.obsRows.map (fun r => getStr r keyTest)
    batchVals := batchLabel.map (fun b => ad.obsRows.map (fun r => getStr r b))
    formula := formulaOf keyTest batchLabel constrainModel
    quickScale := quickScale
    sizeFactors := sizeFactor }

/-- `testTwoSample` (the Single-Pair Tester, source lines 66-124): asserts
that the binary column has exactly two distinct values, then invokes the
external engine and returns its per-gene summary table. -/
def testTwoSample (wald : WaldInput → Df) (ad : AdM) (keyTest : String)
    (batchLabel : Option String) (quickScale : Bool)
    (sizeFactor : Option String) (constrainModel : Bool) : Except String Df :=
  if (uniqueFirst (ad.obsRows.map (fun r => getStr r keyTest))).length = 2 then
    Except.ok (wald (waldInputOf ad keyTest batchLabel quickScale sizeFactor constrainModel))
  else
    Except.error "More Than Two Samples found"

/-- The retained-annotation-column list both dispatchers build (source
lines 184-188 and 304-308).  Entries are `Option String` because Python
appends the raw optional value: when a size factor is supplied the code
appends `batchLabel` (not `sizeFactor`), which is `None` when no batch
column was given. -/
def lsUseCol (testLabel : String) (batchLabel sizeFactor : Option String) :
    List (Option String) :=
  [some testLabel]
    ++ (if batchLabel.isSome then [batchLabel] else [])
    ++ (if sizeFactor.isSome then [batchLabel] else [])

/-- Modelled from the spec: `basic.getPartialLayersAdata` is the external
layer-extraction collaborator (the `basic` module is not among the sources);
per §6 it takes a full collection, a layer selector and a list of annotation
columns to retain, and returns a reduced working collection.  The model
carries a single layer, so the selector picks the collection's matrix
whatever its name; the working collection is a fresh object (no aliasing of
the caller's state) whose metadata store starts empty and whose annotation
rows keep only the requested columns. -/
def getLayersAdata (ad : AdM) (layer : String) (cols : List (Option String)) :
    AdM :=
  let _ := layer
  { genes := ad.genes
    obsRows := ad.obsRows.map (fun r => r.filter (fun p => cols.contains (some p.1)))
    X := ad.X
    sparse := ad.sparse
    uns := [] }

/-- Python truthiness of an optional string (`if not layer`, `if not
keyAdded`): `None` and `""` are falsy. -/
def falsyStr (s : Option String) : Bool :=
  match s with
  | none => true
  | some "" => true
  | some _ => false

/-- Python truthiness of an optional list (`if not groups`): `None` and the
empty list are falsy. -/
def falsyList (l : Option (List String)) : Bool :=
  match l with
  | none => true
  | some [] => true
  | some _ => false

/-- `ss.csr_matrix(adata.shape)`: the all-zero placeholder matrix the
parallel path installs to avoid re-pickling the full matrix per task. -/
def zerosLike (X : List (List Rat)) : List (List Rat) :=
  X.map (fun row => row.map (fun _ => 0))

/-- `_getDiffxpy` (the parallel worker, source lines 472-513).  With a
shared-memory triple the worker rebuilds the dense matrix from the buffer
(here: the matrix value itself), masks cells by the `keep` column written by
the no-subset Format Adapter, and keeps the genes whose expression **sum**
over the kept cells is strictly greater than `minCellCounts` (source line
501) — not the nonzero-cell count the sequential path's
`sc.pp.filter_genes` uses. -/
def _getDiffxpy (wald : WaldInput → Df) (ad : AdM) (testLabel testComp : String)
    (batchLabel : Option String) (minCellCounts : Nat) (quickScale : Bool)
    (sizeFactor : Option String) (constrainModel : Bool)
    (ls_shm : Option (List (List Rat))) : Except String Df :=
  let adParsed := parseAdToDiffxpyFormat ad testLabel testComp none batchLabel
    minCellCounts "temp" false
  let adFinal :=
    match ls_shm with
    | none =>
        { adParsed with sparse := false }
    | some mtx =>
        let keepMask := adParsed.obsRows.map (fun r => getFlag r "keep")
        let keptRows := maskList mtx keepMask
        let ls_keepVar := (List.range adParsed.genes.length).map
          (fun j => decide ((minCellCounts : Rat) <
            (keptRows.map (fun row => colEntry row j)).sum))
        subsetGenes
          (subsetCellsMask { adParsed with X := mtx, sparse := false } keepMask)
          ls_keepVar
  testTwoSample wald adFinal "temp" batchLabel quickScale sizeFactor constrainModel

/-- One iteration of the sequential `vsRest` loop (source lines 228-245):
Format Adapter with subsetting, then the Single-Pair Tester. -/
def vsRestSeqGroup (wald : WaldInput → Df) (adW : AdM) (testLabel : String)
    (batchLabel : Option String) (minCellCounts : Nat) (quickScale : Bool)
    (sizeFactor : Option String) (constrainModel : Bool) (g : String) :
    Except String Df :=
  let adTest := parseAdToDiffxpyFormat adW testLabel g none batchLabel
    minCellCounts "temp" true
  testTwoSample wald adTest "temp" batchLabel quickScale sizeFactor constrainModel

/-- The working-collection preparation shared by the `vsRest` paths (source
lines 190-194): layer extraction, count recovery for log input, restriction
to the selected groups. -/
def vsRestPrepare (expM1 : Rat → Rat) (ad : AdM) (layerR testLabel : String)
    (cols : List (Option String)) (inputIsLog : Bool) (groupsR : List String) :
    Except String AdM := do
  let adW0 := getLayersAdata ad layerR cols
  let adW1 ←
    if inputIsLog then
      if adW0.sparse then
        -- `ss.linalg.expm(adata.X) - 1`: scipy's `expm` is the **matrix**
        -- exponential (it rejects non-square input), and subtracting a
        -- nonzero scalar from a sparse matrix raises NotImplementedError,
        -- so this branch never yields the elementwise transform: it raises.
        Except.error "ss.linalg.expm(adata.X) - 1 raises on sparse input"
      else
        pure { adW0 with X := adW0.X.map (fun row => row.map expM1) }
    else
      pure adW0
  pure (subsetCells adW1 (fun r => groupsR.contains (getStr r testLabel)))

/-- The per-group dispatch of `vsRest` (source lines 199-246): parallel path
for `threads > 1` (shared dense buffer, placeholder X, one `_getDiffxpy`
task per group; the futures dict is keyed by group at submission, so the
collected mapping is in group-list order whatever the completion order),
sequential path otherwise. -/
def vsRestEntries (wald : WaldInput → Df) (adW : AdM) (testLabel : String)
    (groupsR : List String) (batchLabel : Option String) (minCellCounts : Nat)
    (quickScale : Bool) (sizeFactor : Option String) (constrainModel : Bool)
    (threads : Nat) : Except String DeResult :=
  if 1 < threads then
    -- the dense matrix copied to the shared buffer is `adW.X`; the submitted
    -- collection carries the all-zero sparse placeholder instead
    groupsR.foldlM
      (fun acc g => do
        let df ← _getDiffxpy wald { adW with X := zerosLike adW.X, sparse := true }
          testLabel g batchLabel minCellCounts quickScale sizeFactor constrainModel
          (some adW.X)
        pure (updateEntry acc g (UnsVal.df df)))
      ([("__cat", UnsVal.str "vsRest")] : DeResult)
  else
    -- `adata.X = adata.X.A if ss.issparse(adata.X) else adata.X`
    groupsR.foldlM
      (fun acc g => do
        let df ← vsRestSeqGroup wald { adW with sparse := false } testLabel
          batchLabel minCellCounts quickScale sizeFactor constrainModel g
        pure (updateEntry acc g (UnsVal.df df)))
      ([("__cat", UnsVal.str "vsRest")] : DeResult)

/-- `vsRest` (the one-vs-rest Group Dispatcher, source lines 127-248).

`wald` is the external engine; `expM1` is the elementwise scalar map
`x ↦ exp(x) - 1` of the dense log-recovery branch, kept opaque because the
exponential is the only non-rational operation of the module.  The result is
the final caller collection paired with the mapping returned when
`copyFlag` is set (`None` otherwise), or the raised error.  Python raising
midway leaves partially written state behind; the model only tracks the
state of completed calls, which is what the claims about successful calls
need. -/
def vsRest (wald : WaldInput → Df) (expM1 : Rat → Rat) (ad : AdM)
    (layer : Option String) (testLabel : String) (groups : Option (List String))
    (batchLabel : Option String) (minCellCounts : Nat)
    (sizeFactor : Option String) (inputIsLog : Bool) (keyAdded : Option String)
    (quickScale : Bool) (constrainModel : Bool) (threads : Nat)
    (copyFlag : Bool) : Except String (AdM × Option DeResult) := do
  let layerR := if falsyStr layer then "X" else layer.getD "X"
  let groupsR := if falsyList groups then uniqueVals ad testLabel else groups.getD []
  let keyAddedR := if falsyStr keyAdded then "diffxpyVsRest_" ++ testLabel
    else keyAdded.getD ""
  let cols := lsUseCol testLabel batchLabel sizeFactor
  let adW ← vsRestPrepare expM1 ad layerR testLabel cols inputIsLog groupsR
  let entries ← vsRestEntries wald adW testLabel groupsR batchLabel minCellCounts
    quickScale sizeFactor constrainModel threads
  if copyFlag then
    pure (ad, some entries)
  else
    pure ({ ad with uns := updateEntry ad.uns keyAddedR entries }, none)

/-- `itertools.product(range(n), range(n))` in iteration order. -/
def indexPairs (n : Nat) : List (Nat × Nat) :=
  (List.range n).flatMap (fun x => (List.range n).map (fun y => (x, y)))

/-- The metadata key `f"test_{tg}_bg_{bg}"`. -/
def testKey (tg bg : String) : String :=
  "test_" ++ tg ++ "_bg_" ++ bg

/-- One computed pair of the `pairWise` upper triangle (source lines
325-341): Format Adapter restricted to the two groups, then the
Single-Pair Tester. -/
def pairTest (wald : WaldInput → Df) (adW : AdM) (testLabel : String)
    (batchLabel : Option String) (minCellCounts : Nat) (quickScale : Bool)
    (sizeFactor : Option String) (constrainModel : Bool) (tg bg : String) :
    Except String Df :=
  let adT := parseAdToDiffxpyFormat adW testLabel tg (some [bg]) batchLabel
    minCellCounts "temp" true
  testTwoSample wald adT "temp" batchLabel quickScale sizeFactor constrainModel

/-- Negate the `log2fc` column of a table (`df["log2fc"] = -df["log2fc"]`
applied to the mirrored copy). -/
def negLog2fc (d : Df) : Df :=
  d.map (fun r => { r with log2fc := -r.log2fc })

/-- The working-collection preparation of `pairWise` (source lines 310-314):
layer extraction, densification, count recovery for log input (elementwise,
the matrix being dense by then), restriction to the selected groups. -/
def pairWisePrepare (expM1 : Rat → Rat) (ad : AdM) (layerR testLabel : String)
    (cols : List (Option String)) (inputIsLog : Bool) (groupsR : List String) :
    AdM :=
  let adW0 := { getLayersAdata ad layerR cols with sparse := false }
  let adW1 := if inputIsLog then
      { adW0 with X := adW0.X.map (fun row => row.map expM1) }
    else adW0
  subsetCells adW1 (fun r => groupsR.contains (getStr r testLabel))

/-- The upper-triangle loop of `pairWise` (source lines 318-343). -/
def pairWiseUpper (wald : WaldInput → Df) (adW : AdM) (testLabel : String)
    (groupsR : List String) (batchLabel : Option String) (minCellCounts : Nat)
    (quickScale : Bool) (sizeFactor : Option String) (constrainModel : Bool) :
    Except String DeResult :=
  (indexPairs groupsR.length).foldlM
    (fun acc xy =>
      if xy.2 ≤ xy.1 then pure acc
      else do
        let df ← pairTest wald adW testLabel batchLabel minCellCounts quickScale
          sizeFactor constrainModel (groupsR.getD xy.1 "") (groupsR.getD xy.2 "")
        pure (updateEntry acc (testKey (groupsR.getD xy.1 "") (groupsR.getD xy.2 ""))
          (UnsVal.df df)))
    ([("__cat", UnsVal.str "pairWise")] : DeResult)

/-- The mirroring loop of `pairWise` (source lines 344-356): each lower
pair's table is the copy of the mirrored upper table with its `log2fc`
column negated. -/
def pairWiseMirror (groupsR : List String) (upper : DeResult) :
    Except String DeResult :=
  (indexPairs groupsR.length).foldlM
    (fun acc xy =>
      if xy.1 ≤ xy.2 then pure acc
      else
        match lookupEntry acc (testKey (groupsR.getD xy.2 "") (groupsR.getD xy.1 "")) with
        | some (UnsVal.df t) =>
            pure (updateEntry acc
              (testKey (groupsR.getD xy.1 "") (groupsR.getD xy.2 "")) (UnsVal.df (negLog2fc t)))
        | _ => Except.error "KeyError")
    upper

/-- `pairWise` (the pairwise Group Dispatcher, source lines 250-359): the
upper triangle (`x < y`) is computed, the lower triangle (`x > y`) is filled
by copying the mirrored table and negating its `log2fc` column. -/
def pairWise (wald : WaldInput → Df) (expM1 : Rat → Rat) (ad : AdM)
    (layer : Option String) (testLabel : String) (groups : Option (List String))
    (batchLabel : Option String) (minCellCounts : Nat)
    (sizeFactor : Option String) (inputIsLog : Bool) (keyAdded : Option String)
    (quickScale : Bool) (constrainModel : Bool) (copyFlag : Bool) :
    Except String (AdM × Option DeResult) := do
  let layerR := if falsyStr layer then "X" else layer.getD "X"
  let groupsR := if falsyList groups then uniqueVals ad testLabel else groups.getD []
  let keyAddedR := if falsyStr keyAdded then "diffxpyPairWise_" ++ testLabel
    else keyAdded.getD ""
  let cols := lsUseCol testLabel batchLabel sizeFactor
  let adW := pairWisePrepare expM1 ad layerR testLabel cols inputIsLog groupsR
  let upper ← pairWiseUpper wald adW testLabel groupsR batchLabel minCellCounts
    quickScale sizeFactor constrainModel
  let full ← pairWiseMirror groupsR upper
  if copyFlag then
    pure (ad, some full)
  else
    pure ({ ad with uns := updateEntry ad.uns keyAddedR full }, none)

/-- The row filter of `getMarker.__twoSample`:
`qval < qvalue & log2fc > log2fc & mean > mean`. -/
def passCut (qvalue log2fc mean : Rat) (r : DfRow) : Bool :=
  decide (r.qval < qvalue) && decide (log2fc < r.log2fc) && decide (mean < r.mean)

/-- Descending order on the coefficient estimate
(`sort_values("coef_mle", ascending=False)`). -/
def coefGe (a b : DfRow) : Prop := b.coef_mle ≤ a.coef_mle

instance : DecidableRel coefGe :=
  fun a b => inferInstanceAs (Decidable (b.coef_mle ≤ a.coef_mle))

instance : IsTotal DfRow coefGe := ⟨fun a b => le_total b.coef_mle a.coef_mle⟩

instance : IsTrans DfRow coefGe := ⟨fun _ _ _ h1 h2 => le_trans h2 h1⟩

/-- `getMarker.__twoSample` (source lines 394-398): filter by the three
cutoffs, then sort descending on `coef_mle`.  pandas' unstable quicksort is
modelled by insertion sort: only the resulting descending order is ever
relied upon. -/
def twoSampleFilter (qvalue log2fc mean : Rat) (d : Df) : Df :=
  List.insertionSort coefGe (d.filter (passCut qvalue log2fc mean))

/-- `df_marker.insert(0, "clusterName", comp)` guarded by
`"clusterName" not in df_marker.columns`: in the model a table carries the
column exactly when its rows do. -/
def insertClusterName (comp : String) (d : Df) : Df :=
  if d.any (fun r => r.clusterName.isSome) then d
  else d.map (fun r => { r with clusterName := some comp })

/-- `df_marker.insert(0, "testedCluster", testedCluster)` with its guard. -/
def insertTestedCluster (tc : String) (d : Df) : Df :=
  if d.any (fun r => r.testedCluster.isSome) then d
  else d.map (fun r => { r with testedCluster := some tc })

/-- `df_marker.insert(1, "bgCluster", bgCluster)` with its guard. -/
def insertBgCluster (bc : String) (d : Df) : Df :=
  if d.any (fun r => r.bgCluster.isSome) then d
  else d.map (fun r => { r with bgCluster := some bc })

/-- `pd.concat(frames)`: raises on an empty frame list, concatenates rows
otherwise. -/
def pdConcat {α : Type} (ls : List (List α)) : Except String (List α) :=
  if ls.isEmpty then Except.error "No objects to concatenate"
  else Except.ok ls.flatten

/-- `getMarker.__vsRest` (source lines 400-415) applied to the stored
mapping: per non-`"__cat"` entry tag the table with its group key, filter
and sort it, then concatenate in mapping order. -/
def markerVsRest (entries : DeResult) (qvalue log2fc mean : Rat) :
    Except String (List DfRow) := do
  let dfs ← entries.foldlM
    (fun (acc : List Df) p =>
      if p.1 == "__cat" then pure acc
      else
        match p.2 with
        | UnsVal.str _ => Except.error "stored value is not a table"
        | UnsVal.df d =>
            pure (acc ++ [twoSampleFilter qvalue log2fc mean (insertClusterName p.1 d)]))
    ([] : List Df)
  pdConcat dfs

/-- Index of the first occurrence of `pat` in `hay`, at position `lo` or
later. -/
def firstIdxFrom (hay pat : List Char) (lo : Nat) : Option Nat :=
  (List.range (hay.length + 1)).find?
    (fun i => decide (lo ≤ i) && pat.isPrefixOf (hay.drop i))

/-- Index of the last occurrence of `pat` in `hay`, at position `lo` or
later. -/
def lastIdxFrom (hay pat : List Char) (lo : Nat) : Option Nat :=
  ((List.range (hay.length + 1)).filter
    (fun i => decide (lo ≤ i) && pat.isPrefixOf (hay.drop i))).getLast?

/-- `re.findall(r"test_([\w\W]+)_bg", comp)[0]`: the leftmost match starts
at the first `test_` that is followed (with at least one character in
between) by a later `_bg`; the greedy capture extends to the **last** such
`_bg`.  `none` models the `IndexError` raised when `findall` is empty. -/
def reTestedCluster (comp : String) : Option String :=
  let h := comp.data
  let starts := (List.range (h.length + 1)).filter
    (fun s => ("test_".data.isPrefixOf (h.drop s)) &&
      ((List.range (h.length + 1)).any
        (fun j => decide (s + 6 ≤ j) && "_bg".data.isPrefixOf (h.drop j))))
  match starts with
  | [] => none
  | s :: _ =>
      match lastIdxFrom h "_bg".data (s + 6) with
      | none => none
      | some j => some (String.mk ((h.drop (s + 5)).take (j - (s + 5))))

/-- `re.findall(r"_bg_([\w\W]+)", comp)[0]`: the leftmost `_bg_` followed by
at least one character; the greedy capture takes the rest of the string. -/
def reBgCluster (comp : String) : Option String :=
  let h := comp.data
  match firstIdxFrom h "_bg_".data 0 with
  | none => none
  | some j => if j + 4 < h.length then some (String.mk (h.drop (j + 4))) else none

/-- One aggregated row of `getMarker.__pairWise`'s groupby result: per
(tested group, gene), the clearance count and the per-background lists. -/
structure AggRow where
  testedCluster : String
  gene : String
  counts : Nat
  bgClusters : List String
  qvals : List Rat
  log2fcs : List Rat
  means : List Rat
  coef_mles : List Rat
deriving DecidableEq

/-- `getMarker.__pairWise` (source lines 417-461): per non-`"__cat"` entry
parse the tested/background group names out of the key, record the
background name (before any filtering), tag, filter and sort the table;
concatenate everything, group by (tested group, gene) aggregating the lists
and the row count; resolve a non-positive `detectedCounts` to
`len(set(ls_compName)) + detectedCounts`; keep the aggregated rows with
`counts >= detectedCounts`.  pandas sorts the groupby keys; the model keeps
them in first-appearance order, which no claim depends on. -/
def markerPairWise (entries : DeResult) (qvalue log2fc mean : Rat)
    (detectedCounts : Int) : Except String (List AggRow) := do
  let st ← entries.foldlM
    (fun (st : List Df × List String) p =>
      if p.1 == "__cat" then pure st
      else
        match p.2 with
        | UnsVal.str _ => Except.error "stored value is not a table"
        | UnsVal.df d =>
            match reTestedCluster p.1, reBgCluster p.1 with
            | some tc, some bc =>
                let d1 := insertBgCluster bc (insertTestedCluster tc d)
                pure (st.1 ++ [twoSampleFilter qvalue log2fc mean d1], st.2 ++ [bc])
            | _, _ => Except.error "IndexError: list index out of range")
    (([], []) : List Df × List String)
  let merged ← pdConcat st.1
  let keys := uniqueFirst
    (merged.map (fun r => (r.testedCluster.getD "", r.gene)))
  let agg := keys.map (fun k =>
    let grp := merged.filter
      (fun r => r.testedCluster.getD "" == k.1 && r.gene == k.2)
    { testedCluster := k.1
      gene := k.2
      counts := grp.length
      bgClusters := grp.map (fun r => r.bgCluster.getD "")
      qvals := grp.map (fun r => r.qval)
      log2fcs := grp.map (fun r => r.log2fc)
      means := grp.map (fun r => r.mean)
      coef_mles := grp.map (fun r => r.coef_mle) })
  let resolved : Int :=
    if detectedCounts ≤ 0 then (uniqueFirst st.2).length + detectedCounts
    else detectedCounts
  pure (agg.filter (fun r => decide (resolved ≤ (r.counts : Int))))

/-- The value `getMarker` returns: a tagged vsRest or pairWise table. -/
inductive MarkerOut where
  | vs : List DfRow → MarkerOut
  | pw : List AggRow → MarkerOut
deriving DecidableEq

/-- `getMarker` (the Marker Extractor, source lines 362-469): look the
mapping up in the metadata store, dispatch on its `"__cat"` discriminator. -/
def getMarker (ad : AdM) (key : String) (qvalue log2fc mean : Rat)
    (detectedCounts : Int) : Except String MarkerOut := do
  match lookupEntry ad.uns key with
  | none => Except.error "KeyError"
  | some entries =>
      match lookupEntry entries "__cat" with
      | some (UnsVal.str "vsRest") => do
          let l ← markerVsRest entries qvalue log2fc mean
          pure (MarkerOut.vs l)
      | some (UnsVal.str "pairWise") => do
          let l ← markerPairWise entries qvalue log2fc mean detectedCounts
          pure (MarkerOut.pw l)
      | _ => Except.error "KeyError"

/-- The per-entry tagged-filtered-sorted tables `getMarker.__vsRest` builds
before concatenating, in mapping order (a proof-support rephrasing of the
loop of `markerVsRest`). -/
def vsRestMarkerBlocks (qvalue log2fc mean : Rat) (es : DeResult) : List Df :=
  es.filterMap (fun p =>
    if p.1 == "__cat" then none
    else
      match p.2 with
      | UnsVal.df d => some (twoSampleFilter qvalue log2fc mean (insertClusterName p.1 d))
      | UnsVal.str _ => none)

/-! ## Example data used by closed theorems -/

/-- A one-column annotation row holding only the group label. -/
def exObs (l : String) : ObsRow := [("cls", ColVal.str l)]

/-- One cell, labelled `"A"`: every cell belongs to the target class. -/
def adOneCell : AdM :=
  { genes := ["g1"]
    obsRows := [exObs "A"]
    X := [[1]]
    sparse := false
    uns := [] }

/-- Two cells, labels `"A"` and `"B"`. -/
def adTwoCells : AdM :=
  { genes := ["g1"]
    obsRows := [exObs "A", exObs "B"]
    X := [[1], [2]]
    sparse := false
    uns := [] }

/-- A collection whose `temp` column already carries the two-valued binary
encoding. -/
def adBinary : AdM :=
  { genes := ["g1"]
    obsRows := [[("temp", ColVal.str "1")], [("temp", ColVal.str "0")]]
    X := [[1], [2]]
    sparse := false
    uns := [] }

/-- A trivial engine returning the empty summary table. -/
def waldConst : WaldInput → Df := fun _ => []

/-- An untagged result-table row with the given statistics. -/
def mkRow (g : String) (q l mn c : Rat) : DfRow :=
  { clusterName := none, testedCluster := none, bgCluster := none,
    gene := g, qval := q, log2fc := l, mean := mn, coef_mle := c }

/-- A cluster-tagged result-table row with the given statistics. -/
def mkRowT (cn g : String) (q l mn c : Rat) : DfRow :=
  { clusterName := some cn, testedCluster := none, bgCluster := none,
    gene := g, qval := q, log2fc := l, mean := mn, coef_mle := c }

/-- The mapping a copy-mode `pairWise` over `["A","B"]` with the trivial
engine produces. -/
def pwMap2 : DeResult :=
  [("__cat", UnsVal.str "pairWise"),
   (testKey "A" "B", UnsVal.df []),
   (testKey "B" "A", UnsVal.df [])]

/-- A vsRest-tagged result mapping over groups `"A"` and `"B"`. -/
def vsMap : DeResult :=
  [("__cat", UnsVal.str "vsRest"),
   ("A", UnsVal.df [mkRow "g1" 0 1 1 1, mkRow "g2" 0 1 1 2]),
   ("B", UnsVal.df [mkRow "g1" 0 1 1 1])]

/-- A collection holding `vsMap` in its metadata store under key `"k"`. -/
def adVs : AdM :=
  { genes := []
    obsRows := []
    X := []
    sparse := false
    uns := [("k", vsMap)] }

/-- The two-cell collection with its matrix flagged sparse. -/
def adTwoSparse : AdM :=
  { genes := ["g1"]
    obsRows := [exObs "A", exObs "B"]
    X := [[1], [2]]
    sparse := true
    uns := [] }

/-- The gene mask the parallel worker's sum filter computes when every cell
of the collection is kept (`_getDiffxpy`, source line 501): keep the genes
whose expression **sum** strictly exceeds `minCells`. -/
def parGeneMask (ad : AdM) (minCells : Nat) : List Bool :=
  (List.range ad.genes.length).map
    (fun j => decide ((minCells : Rat) < (ad.X.map (fun row => colEntry row j)).sum))

/-- Pointwise column equality of two annotation rows under `getStr`: every
string-column read agrees.  All columns the dispatch pipeline consumes are
read through `getStr`. -/
def strEqRows (r1 r2 : ObsRow) : Prop := ∀ c, getStr r1 c = getStr r2 c

/-- The optional combined batch-column assignment that closes the Format
Adapter (source lines 60-63), factored out to share between its two
`subset` modes. -/
def batchCombine (batchLabel : Option String) (keyAdded : String) (ad : AdM) : AdM :=
  match batchLabel with
  | none => ad
  | some b =>
      assignColAll ad (b ++ "_" ++ keyAdded)
        (fun r => ColVal.str (getStr r b ++ "_" ++ getStr r keyAdded))

/-- A two-cell one-gene collection on which the two concurrency paths'
gene filters disagree for `minCellCounts = 2`: the gene is detected in a
single cell (so `sc.pp.filter_genes` drops it) but its expression sum is 3
(so the worker's sum filter keeps it). -/
def adC1 : AdM :=
  { genes := ["g1"]
    obsRows := [exObs "A", exObs "B"]
    X := [[3], [0]]
    sparse := false
    uns := [] }

/-- An engine returning one row per gene of its input, so that the returned
table reflects the retained gene set. -/
def waldGenes : WaldInput → Df :=
  fun inp => inp.genes.map (fun g => mkRow g 0 0 0 0)

/-- Well-formedness of one pairWise mapping entry for `getMarker.__pairWise`:
the category tag, or a stored table under a key both key-parsing regexes
match — exactly the shape `pairWise` writes. -/
def pwEntryOk (p : String × UnsVal) : Bool :=
  p.1 == "__cat" ||
    (match p.2 with
     | UnsVal.df _ => (reTestedCluster p.1).isSome && (reBgCluster p.1).isSome
     | UnsVal.str _ => false)

/-- The tagged-filtered-sorted tables `getMarker.__pairWise` accumulates, in
mapping order (a proof-support rephrasing of the loop of
`markerPairWise`). -/
def pairWiseBlocks (qvalue log2fc mean : Rat) (es : DeResult) : List Df :=
  es.filterMap (fun p =>
    if p.1 == "__cat" then none
    else
      match p.2 with
      | UnsVal.df d =>
          match reTestedCluster p.1, reBgCluster p.1 with
          | some tc, some bc =>
              some (twoSampleFilter qvalue log2fc mean
                (insertBgCluster bc (insertTestedCluster tc d)))
          | _, _ => none
      | UnsVal.str _ => none)

/-- The background names `getMarker.__pairWise` records, one per stored
table and **before** any row filtering (the loop's second accumulator). -/
def pairWiseBgs (es : DeResult) : List String :=
  es.filterMap (fun p =>
    if p.1 == "__cat" then none
    else
      match p.2 with
      | UnsVal.df _ =>
          match reTestedCluster p.1, reBgCluster p.1 with
          | some _, some bc => some bc
          | _, _ => none
      | UnsVal.str _ => none)

/-- The aggregated (tested group, gene) rows of `getMarker.__pairWise`
before the clearance-count filter (a proof-support rephrasing of its
groupby). -/
def pairWiseAgg (qvalue log2fc mean : Rat) (es : DeResult) : List AggRow :=
  let merged := (pairWiseBlocks qvalue log2fc mean es).flatten
  let keys := uniqueFirst (merged.map (fun r => (r.testedCluster.getD "", r.gene)))
  keys.map (fun k =>
    let grp := merged.filter
      (fun r => r.testedCluster.getD "" == k.1 && r.gene == k.2)
    { testedCluster := k.1
      gene := k.2
      counts := grp.length
      bgClusters := grp.map (fun r => r.bgCluster.getD "")
      qvals := grp.map (fun r => r.qval)
      log2fcs := grp.map (fun r => r.log2fc)
      means := grp.map (fun r => r.mean)
      coef_mles := grp.map (fun r => r.coef_mle) })

/-- A full pairWise result mapping over the four groups `A`,`B`,`C`,`D`:
under tested group `A` the gene `g` clears the cutoffs (for `qvalue = 1`,
floors `0`) against backgrounds `B` and `C` but not `D`; every other pair's
table is empty. -/
def pwMap4 : DeResult :=
  [("__cat", UnsVal.str "pairWise"),
   (testKey "A" "B", UnsVal.df [mkRow "g" 0 1 1 0]),
   (testKey "A" "C", UnsVal.df [mkRow "g" 0 1 1 0]),
   (testKey "A" "D", UnsVal.df [mkRow "g" 2 1 1 0]),
   (testKey "B" "A", UnsVal.df []),
   (testKey "B" "C", UnsVal.df []),
   (testKey "B" "D", UnsVal.df []),
   (testKey "C" "A", UnsVal.df []),
   (testKey "C" "B", UnsVal.df []),
   (testKey "C" "D", UnsVal.df []),
   (testKey "D" "A", UnsVal.df []),
   (testKey "D" "B", UnsVal.df []),
   (testKey "D" "C", UnsVal.df [])]

/-- A collection holding `pwMap4` in its metadata store under key `"k"`. -/
def adPW4 : AdM :=
  { genes := []
    obsRows := []
    X := []
    sparse := false
    uns := [("k", pwMap4)] }


/-! ## Helper lemmas -/

instance {α β : Type} [DecidableEq α] [DecidableEq β] : DecidableEq (Except α β) :=
  fun x y =>
    match x, y with
    | Except.error a, Except.error b =>
        if h : a = b then isTrue (congrArg Except.error h)
        else isFalse (fun hc => h (Except.error.inj hc))
    | Except.error _, Except.ok _ => isFalse (fun hc => Except.noConfusion hc)
    | Except.ok _, Except.error _ => isFalse (fun hc => Except.noConfusion hc)
    | Except.ok a, Except.ok b =>
        if h : a = b then isTrue (congrArg Except.ok h)
        else isFalse (fun hc => h (Except.ok.inj hc))

theorem exceptBind_ok {α β : Type} (a : α) (f : α → Except String β) :
    ((Except.ok a : Except String α) >>= f) = f a := rfl

theorem exceptBind_error {α β : Type} (e : String) (f : α → Except String β) :
    ((Except.error e : Except String α) >>= f) = Except.error e := rfl

theorem mem_uniqueFirstAux {α : Type} [DecidableEq α] (l : List α) :
    ∀ (seen : List α) (a : α), a ∈ uniqueFirstAux l seen ↔ a ∈ l ∧ a ∉ seen := by
  induction l with
  | nil => intro seen a; simp [uniqueFirstAux]
  | cons b rest ih =>
      intro seen a
      by_cases hb : b ∈ seen
      · rw [uniqueFirstAux, if_pos hb, ih]
        simp only [List.mem_cons]
        constructor
        · rintro ⟨h1, h2⟩
          exact ⟨Or.inr h1, h2⟩
        · rintro ⟨h1 | h1, h2⟩
          · exact absurd (h1 ▸ hb) h2
          · exact ⟨h1, h2⟩
      · rw [uniqueFirstAux, if_neg hb]
        simp only [List.mem_cons, ih, List.mem_cons]
        constructor
        · rintro (h1 | ⟨h1, h2⟩)
          · exact ⟨Or.inl h1, h1 ▸ hb⟩
          · exact ⟨Or.inr h1, fun hc => h2 (Or.inr hc)⟩
        · rintro ⟨h1 | h1, h2⟩
          · exact Or.inl h1
          · by_cases hab : a = b
            · exact Or.inl hab
            · refine Or.inr ⟨h1, fun hc => ?_⟩
              rcases hc with h3 | h3
              · exact hab h3
              · exact h2 h3

theorem mem_uniqueFirst {α : Type} [DecidableEq α] (l : List α) (a : α) :
    a ∈ uniqueFirst l ↔ a ∈ l := by
  rw [uniqueFirst, mem_uniqueFirstAux]
  simp

theorem find?_filter_of_imp {α : Type} (l : List α) (p q : α → Bool)
    (h : ∀ x, p x = true → q x = true) :
    (l.filter q).find? p = l.find? p := by
  induction l with
  | nil => rfl
  | cons x xs ih =>
      by_cases hq : q x = true
      · rw [List.filter_cons_of_pos hq]
        by_cases hp : p x = true
        · rw [List.find?_cons_of_pos _ hp, List.find?_cons_of_pos _ hp]
        · rw [List.find?_cons_of_neg _ hp, List.find?_cons_of_neg _ hp, ih]
      · have hp : ¬ p x = true := fun hc => hq (h x hc)
        rw [List.filter_cons_of_neg (by simpa using hq),
          List.find?_cons_of_neg _ hp, ih]

theorem getColVal_assignCol_self (r : ObsRow) (c : String) (v : ColVal) :
    getColVal (assignCol r c v) c = some v := by
  unfold assignCol getColVal
  have hnone : (r.filter (fun p => p.1 != c)).find? (fun p => p.1 == c) = none := by
    apply List.find?_eq_none.mpr
    intro x hx
    have hx2 := (List.mem_filter.mp hx).2
    simp only [bne_iff_ne, ne_eq] at hx2
    simp [hx2]
  rw [List.find?_append, hnone]
  simp

theorem getColVal_assignCol_ne (r : ObsRow) (c c2 : String) (v : ColVal)
    (h : c2 ≠ c) :
    getColVal (assignCol r c v) c2 = getColVal r c2 := by
  unfold assignCol getColVal
  rw [List.find?_append]
  have hcc : (c == c2) = false := by
    simp [Ne.symm h]
  have h2 : ([(c, v)].find? (fun p => p.1 == c2)) = none := by
    simp [List.find?, hcc]
  have h3 : (r.filter (fun p => p.1 != c)).find? (fun p => p.1 == c2)
      = r.find? (fun p => p.1 == c2) := by
    apply find?_filter_of_imp
    intro x hx
    have hx1 : x.1 = c2 := by simpa using hx
    simp [hx1, h]
  rw [h2, h3]
  cases r.find? (fun p => p.1 == c2) <;> simp

theorem getStr_assignCol_self (r : ObsRow) (c s : String) :
    getStr (assignCol r c (ColVal.str s)) c = s := by
  rw [getStr, getColVal_assignCol_self]

theorem getStr_assignCol_ne (r : ObsRow) (c c2 : String) (v : ColVal)
    (h : c2 ≠ c) :
    getStr (assignCol r c v) c2 = getStr r c2 := by
  rw [getStr, getColVal_assignCol_ne r c c2 v h, getStr]

theorem subsetCells_eq_self (ad : AdM) (p : ObsRow → Bool)
    (hlen : ad.obsRows.length = ad.X.length)
    (hall : ∀ r ∈ ad.obsRows, p r = true) :
    subsetCells ad p = ad := by
  unfold subsetCells
  have hfil : (ad.obsRows.zip ad.X).filter (fun rc => p rc.1) = ad.obsRows.zip ad.X := by
    apply List.filter_eq_self.mpr
    intro rc hrc
    exact hall rc.1 (List.of_mem_zip hrc).1
  rw [hfil]
  cases ad with
  | mk genes obsRows X sparse uns =>
      simp only [AdM.mk.injEq, and_true, true_and]
      refine ⟨?_, ?_⟩
      · exact List.map_fst_zip _ _ (le_of_eq hlen)
      · exact List.map_snd_zip _ _ (le_of_eq hlen.symm)

/-- With the default reference set (all other distinct label values), the
subset predicate of the Format Adapter keeps every cell. -/
theorem parseAd_default_keeps_all (ad : AdM) (testLabel testComp : String) :
    ∀ r ∈ ad.obsRows,
      ((testComp :: (uniqueVals ad testLabel).filter (fun x => x ≠ testComp)).contains
        (getStr r testLabel)) = true := by
  intro r hr
  by_cases h : getStr r testLabel = testComp
  · simp [h]
  · have hmem : getStr r testLabel ∈ uniqueVals ad testLabel := by
      rw [uniqueVals, mem_uniqueFirst]
      exact List.mem_map_of_mem _ hr
    have hfil : getStr r testLabel ∈
        (uniqueVals ad testLabel).filter (fun x => x ≠ testComp) := by
      rw [List.mem_filter]
      exact ⟨hmem, by simp [h]⟩
    simp [h, hfil, hmem]

/-- Unfolding lemma: the Format Adapter with default `otherComp`, no batch
column and `subsetFlag = true` is the subset-filter-assign pipeline. -/
theorem parseAd_default_eq (ad : AdM) (testLabel testComp keyAdded : String)
    (minCellCounts : Nat) :
    parseAdToDiffxpyFormat ad testLabel testComp none none minCellCounts keyAdded true
      = assignColAll
          (filterGenes
            (subsetCells ad (fun r =>
              (testComp :: (uniqueVals ad testLabel).filter (fun x => x ≠ testComp)).contains
                (getStr r testLabel)))
            minCellCounts)
          keyAdded
          (fun r => ColVal.str (if getStr r testLabel == testComp then "1" else "0")) := rfl

/-- The annotation rows of the default-parameter Format Adapter: every cell
kept, the binary column assigned from the group label. -/
theorem parseAd_default_obsRows (ad : AdM) (testLabel testComp keyAdded : String)
    (minCellCounts : Nat)
    (hlen : ad.obsRows.length = ad.X.length) :
    (parseAdToDiffxpyFormat ad testLabel testComp none none minCellCounts keyAdded true).obsRows
      = ad.obsRows.map (fun r => assignCol r keyAdded
          (ColVal.str (if getStr r testLabel == testComp then "1" else "0"))) := by
  rw [parseAd_default_eq,
    subsetCells_eq_self ad _ hlen (parseAd_default_keeps_all ad testLabel testComp)]
  rfl

theorem zip_self_map {α β : Type} (l : List α) (f : α → β) :
    l.zip (l.map f) = l.map (fun a => (a, f a)) := by
  induction l with
  | nil => rfl
  | cons a rest ih => simp [ih]

/-! ## C5 — Format Adapter binary column -/

/-- C5 (counterexample): on a collection whose every cell carries the target
label, the Format Adapter's added binary column has the single distinct value
`"1"`, not the two distinct values `{"0","1"}` the claim asserts for every
collection and target group. -/
theorem C5_format_adapter_counterexample :
    uniqueFirst ((parseAdToDiffxpyFormat adOneCell "cls" "A" none none 5 "temp"
        true).obsRows.map (fun r => getStr r "temp")) = ["1"]
    ∧ "0" ∉ ((parseAdToDiffxpyFormat adOneCell "cls" "A" none none 5 "temp"
        true).obsRows.map (fun r => getStr r "temp")) := by
  decide

/-- C5 (amended): with default references and subsetting, provided at least
one cell carries the target label and at least one does not, the added
binary column takes exactly the distinct values `{"1","0"}`; positionally, a
cell receives `"1"` exactly when its group label equals the target; and the
number of `"1"` cells equals the number of cells whose original label equals
the target. -/
theorem C5_format_adapter_binary (ad : AdM) (testLabel testComp keyAdded : String)
    (minCellCounts : Nat)
    (hlen : ad.obsRows.length = ad.X.length)
    (hpos : ∃ r ∈ ad.obsRows, getStr r testLabel = testComp)
    (hneg : ∃ r ∈ ad.obsRows, getStr r testLabel ≠ testComp) :
    ("1" ∈ ((parseAdToDiffxpyFormat ad testLabel testComp none none minCellCounts
          keyAdded true).obsRows.map (fun r => getStr r keyAdded))
      ∧ "0" ∈ ((parseAdToDiffxpyFormat ad testLabel testComp none none minCellCounts
          keyAdded true).obsRows.map (fun r => getStr r keyAdded))
      ∧ ∀ v ∈ ((parseAdToDiffxpyFormat ad testLabel testComp none none minCellCounts
          keyAdded true).obsRows.map (fun r => getStr r keyAdded)), v = "1" ∨ v = "0")
    ∧ (∀ p ∈ ad.obsRows.zip (parseAdToDiffxpyFormat ad testLabel testComp none none
          minCellCounts keyAdded true).obsRows,
        (getStr p.2 keyAdded = "1" ↔ getStr p.1 testLabel = testComp))
    ∧ (parseAdToDiffxpyFormat ad testLabel testComp none none minCellCounts
          keyAdded true).obsRows.countP (fun r => getStr r keyAdded == "1")
        = ad.obsRows.countP (fun r => getStr r testLabel == testComp) := by
  have hobs := parseAd_default_obsRows ad testLabel testComp keyAdded minCellCounts hlen
  have hvals : (parseAdToDiffxpyFormat ad testLabel testComp none none minCellCounts
        keyAdded true).obsRows.map (fun r => getStr r keyAdded)
      = ad.obsRows.map (fun r => if getStr r testLabel == testComp then "1" else "0") := by
    rw [hobs, List.map_map]
    apply List.map_congr_left
    intro r _
    simp only [Function.comp]
    rw [getStr_assignCol_self]
  refine ⟨⟨?_, ?_, ?_⟩, ?_, ?_⟩
  · rw [hvals]
    obtain ⟨r, hr, hr2⟩ := hpos
    refine List.mem_map.mpr ⟨r, hr, ?_⟩
    simp [hr2]
  · rw [hvals]
    obtain ⟨r, hr, hr2⟩ := hneg
    refine List.mem_map.mpr ⟨r, hr, ?_⟩
    simp [hr2]
  · rw [hvals]
    intro v hv
    obtain ⟨r, _, hr2⟩ := List.mem_map.mp hv
    by_cases h : getStr r testLabel == testComp
    · left; rw [← hr2]; simp [h]
    · right; rw [← hr2]; simp [h]
  · intro p hp
    rw [hobs, zip_self_map] at hp
    obtain ⟨r, _, hr2⟩ := List.mem_map.mp hp
    rw [← hr2]
    simp only
    rw [getStr_assignCol_self]
    by_cases h : getStr r testLabel = testComp
    · simp [h]
    · simp [h]
  · rw [hobs, List.countP_map]
    apply List.countP_congr
    intro r _
    simp only [Function.comp]
    rw [getStr_assignCol_self]
    by_cases h : getStr r testLabel = testComp
    · simp [h]
    · simp [h]

/-- C5 (witness): the amended theorem applied to the two-cell collection. -/
theorem C5_format_adapter_witness :
    "1" ∈ ((parseAdToDiffxpyFormat adTwoCells "cls" "A" none none 5 "temp"
        true).obsRows.map (fun r => getStr r "temp"))
    ∧ "0" ∈ ((parseAdToDiffxpyFormat adTwoCells "cls" "A" none none 5 "temp"
        true).obsRows.map (fun r => getStr r "temp"))
    ∧ ∀ v ∈ ((parseAdToDiffxpyFormat adTwoCells "cls" "A" none none 5 "temp"
        true).obsRows.map (fun r => getStr r "temp")), v = "1" ∨ v = "0" :=
  (C5_format_adapter_binary adTwoCells "cls" "A" "temp" 5 (by decide)
    ⟨exObs "A", by decide, by decide⟩ ⟨exObs "B", by decide, by decide⟩).1

/-! ## C6 — Single-Pair Tester contract -/

/-- C6: `testTwoSample` raises exactly when the designated binary column does
not have exactly two distinct values; with exactly two distinct values it
returns the external engine's per-gene summary table. -/
theorem C6_testTwoSample_contract (wald : WaldInput → Df) (ad : AdM)
    (keyTest : String) (batchLabel : Option String) (quickScale : Bool)
    (sizeFactor : Option String) (constrainModel : Bool) :
    ((∃ e, testTwoSample wald ad keyTest batchLabel quickScale sizeFactor constrainModel
        = Except.error e)
      ↔ (uniqueFirst (ad.obsRows.map (fun r => getStr r keyTest))).length ≠ 2)
    ∧ ((uniqueFirst (ad.obsRows.map (fun r => getStr r keyTest))).length = 2 →
        testTwoSample wald ad keyTest batchLabel quickScale sizeFactor constrainModel
          = Except.ok (wald (waldInputOf ad keyTest batchLabel quickScale sizeFactor
              constrainModel))) := by
  unfold testTwoSample
  by_cases h : (uniqueFirst (ad.obsRows.map (fun r => getStr r keyTest))).length = 2
  · rw [if_pos h]
    refine ⟨⟨?_, ?_⟩, ?_⟩
    · rintro ⟨e, he⟩
      simp at he
    · intro hne
      exact absurd h hne
    · intro _
      rfl
  · rw [if_neg h]
    refine ⟨⟨?_, ?_⟩, ?_⟩
    · intro _
      exact h
    · intro _
      exact ⟨_, rfl⟩
    · intro h2
      exact absurd h2 h

/-- C6 (witness): the contract applied at a concrete two-valued collection. -/
theorem C6_testTwoSample_witness :
    (uniqueFirst (adBinary.obsRows.map (fun r => getStr r "temp"))).length = 2
    ∧ testTwoSample waldConst adBinary "temp" none false none false
        = Except.ok (waldConst (waldInputOf adBinary "temp" none false none false)) :=
  ⟨by decide,
    (C6_testTwoSample_contract waldConst adBinary "temp" none false none false).2 (by decide)⟩

/-! ## C10 — size-factor column never retained -/

/-- C10 (counterexample): when the supplied size-factor column name equals
the group-label column name, the size-factor column *is* among the retained
annotation columns even though it does not coincide with the (absent) batch
column — refuting the claim's "never … unless it coincides with the batch
column". -/
theorem C10_size_factor_counterexample :
    some "sf" ∈ lsUseCol "sf" none (some "sf")
    ∧ (none : Option String) ≠ some "sf" := by
  decide

/-- C10 (amended): when a size-factor column name is supplied, the retained
column list gains the batch-column name again (`none` when no batch column
is given) rather than the size-factor column, so the named size-factor
column is among the retained annotation columns exactly when it coincides
with the batch column or with the group-label column itself. -/
theorem C10_size_factor_columns (testLabel : String) (batchLabel : Option String)
    (s : String) :
    lsUseCol testLabel batchLabel (some s)
      = [some testLabel] ++ (if batchLabel.isSome then [batchLabel] else [])
          ++ [batchLabel]
    ∧ (some s ∈ lsUseCol testLabel batchLabel (some s)
        ↔ (batchLabel = some s ∨ testLabel = s)) := by
  constructor
  · rfl
  · cases batchLabel with
    | none =>
        simp only [lsUseCol]
        simp [eq_comm]
    | some b =>
        simp only [lsUseCol, Option.isSome_some, if_pos]
        constructor
        · intro hmem
          rcases List.mem_append.mp hmem with hmem1 | hmem1
          · rcases List.mem_append.mp hmem1 with hmem2 | hmem2
            · right
              cases List.mem_singleton.mp hmem2
              rfl
            · left
              cases List.mem_singleton.mp hmem2
              rfl
          · left
            cases List.mem_singleton.mp hmem1
            rfl
        · rintro (hb | ht)
          · rw [hb]
            simp
          · rw [ht]
            simp

theorem nodup_uniqueFirstAux {α : Type} [DecidableEq α] (l : List α) :
    ∀ seen : List α, (uniqueFirstAux l seen).Nodup := by
  induction l with
  | nil => intro seen; simp [uniqueFirstAux]
  | cons b rest ih =>
      intro seen
      by_cases hb : b ∈ seen
      · rw [uniqueFirstAux, if_pos hb]
        exact ih seen
      · rw [uniqueFirstAux, if_neg hb]
        refine List.Nodup.cons ?_ (ih (b :: seen))
        intro hmem
        have := (mem_uniqueFirstAux rest (b :: seen) b).mp hmem
        exact this.2 (List.mem_cons_self b seen)

theorem nodup_uniqueFirst {α : Type} [DecidableEq α] (l : List α) :
    (uniqueFirst l).Nodup :=
  nodup_uniqueFirstAux l []

theorem updateEntry_of_not_mem {α : Type} (m : List (String × α)) (k : String)
    (v : α) (h : k ∉ m.map Prod.fst) :
    updateEntry m k v = m ++ [(k, v)] := by
  unfold updateEntry
  rw [if_neg]
  intro hc
  obtain ⟨p, hp, hp2⟩ := List.any_eq_true.mp hc
  exact h (List.mem_map.mpr ⟨p, hp, by simpa using hp2.symm⟩)

theorem lookupEntry_updateEntry_self {α : Type} (m : List (String × α))
    (k : String) (v : α) :
    lookupEntry (updateEntry m k v) k = some v := by
  unfold updateEntry lookupEntry
  by_cases h : m.any (fun p => p.1 == k)
  · rw [if_pos h]
    induction m with
    | nil => simp at h
    | cons p rest ih =>
        by_cases hp : p.1 == k
        · simp [List.find?, hp]
        · have hrest : rest.any (fun p => p.1 == k) = true := by
            rcases List.any_eq_true.mp h with ⟨q, hq, hq2⟩
            rcases List.mem_cons.mp hq with hq | hq
            · exact absurd (hq ▸ hq2) (by simpa using hp)
            · exact List.any_eq_true.mpr ⟨q, hq, hq2⟩
          have := ih hrest
          simpa [List.find?, hp] using this
  · rw [if_neg h]
    have hnone : m.find? (fun p => p.1 == k) = none := by
      rw [List.find?_eq_none]
      intro p hp hc
      exact h (List.any_eq_true.mpr ⟨p, hp, hc⟩)
    rw [List.find?_append, hnone]
    simp

theorem lookupEntry_updateEntry_ne {α : Type} (m : List (String × α))
    (k k2 : String) (v : α) (h : k2 ≠ k) :
    lookupEntry (updateEntry m k v) k2 = lookupEntry m k2 := by
  unfold updateEntry lookupEntry
  by_cases hmem : m.any (fun p => p.1 == k)
  · rw [if_pos hmem]
    clear hmem
    induction m with
    | nil => rfl
    | cons p rest ih =>
        rw [List.map_cons]
        by_cases hp : (p.1 == k) = true
        · rw [if_pos hp]
          have hpk : p.1 = k := by simpa using hp
          have h1 : ¬ ((fun q : String × α => q.1 == k2) (k, v)) = true := by
            simp [Ne.symm h]
          have h2 : ¬ ((fun q : String × α => q.1 == k2) p) = true := by
            simp [hpk, Ne.symm h]
          rw [@List.find?_cons_of_neg _ (fun q : String × α => q.1 == k2) _ _ h1,
            @List.find?_cons_of_neg _ (fun q : String × α => q.1 == k2) _ _ h2]
          exact ih
        · rw [if_neg hp]
          by_cases hp2 : ((fun q : String × α => q.1 == k2) p) = true
          · rw [@List.find?_cons_of_pos _ (fun q : String × α => q.1 == k2) _ _ hp2,
              @List.find?_cons_of_pos _ (fun q : String × α => q.1 == k2) _ _ hp2]
          · rw [@List.find?_cons_of_neg _ (fun q : String × α => q.1 == k2) _ _ hp2,
              @List.find?_cons_of_neg _ (fun q : String × α => q.1 == k2) _ _ hp2]
            exact ih
  · rw [if_neg hmem]
    rw [List.find?_append]
    have hk : (k == k2) = false := by simp [Ne.symm h]
    have h2 : ([(k, v)].find? (fun p => p.1 == k2)) = none := by
      simp [List.find?, hk]
    rw [h2]
    cases m.find? (fun p => p.1 == k2) <;> simp

/-- Folding dict insertion of per-group results over a group list with fresh
keys appends one entry per group, in list order. -/
theorem foldlM_update_keys (f : String → Except String Df) :
    ∀ (gs : List String) (acc : DeResult) (m : DeResult),
      gs.Nodup → (∀ g ∈ gs, g ∉ acc.map Prod.fst) →
      (gs.foldlM (fun acc g => do
          let df ← f g
          pure (updateEntry acc g (UnsVal.df df))) acc) = Except.ok m →
      m.map Prod.fst = acc.map Prod.fst ++ gs := by
  intro gs
  induction gs with
  | nil =>
      intro acc m _ _ h
      simp only [List.foldlM_nil] at h
      cases h
      simp
  | cons g rest ih =>
      intro acc m hnd hdis h
      rw [List.foldlM_cons] at h
      cases hfg : f g with
      | error e =>
          rw [hfg] at h
          exact Except.noConfusion h
      | ok df =>
          rw [hfg] at h
          have h2 : rest.foldlM (fun acc g => do
              let df ← f g
              pure (updateEntry acc g (UnsVal.df df)))
              (updateEntry acc g (UnsVal.df df)) = Except.ok m := h
          have hkeys : (updateEntry acc g (UnsVal.df df)).map Prod.fst
              = acc.map Prod.fst ++ [g] := by
            rw [updateEntry_of_not_mem _ _ _ (hdis g (List.mem_cons_self g rest))]
            simp
          have hdis2 : ∀ g2 ∈ rest, g2 ∉ (updateEntry acc g (UnsVal.df df)).map Prod.fst := by
            intro g2 hg2
            rw [hkeys]
            intro hc
            rcases List.mem_append.mp hc with hc | hc
            · exact hdis g2 (List.mem_cons_of_mem _ hg2) hc
            · rcases List.mem_singleton.mp hc with rfl
              exact (List.nodup_cons.mp hnd).1 hg2
          have := ih (updateEntry acc g (UnsVal.df df)) m
            (List.nodup_cons.mp hnd).2 hdis2 h2
          rw [this, hkeys]
          simp

/-- Unfolding lemma for `vsRest`, stated without local lets. -/
theorem vsRest_def (wald : WaldInput → Df) (expM1 : Rat → Rat) (ad : AdM)
    (layer : Option String) (testLabel : String) (groups : Option (List String))
    (batchLabel : Option String) (minCellCounts : Nat) (sizeFactor : Option String)
    (inputIsLog : Bool) (keyAdded : Option String) (quickScale constrainModel : Bool)
    (threads : Nat) (copyFlag : Bool) :
    vsRest wald expM1 ad layer testLabel groups batchLabel minCellCounts sizeFactor
        inputIsLog keyAdded quickScale constrainModel threads copyFlag
      = (vsRestPrepare expM1 ad (if falsyStr layer then "X" else layer.getD "X")
          testLabel (lsUseCol testLabel batchLabel sizeFactor) inputIsLog
          (if falsyList groups then uniqueVals ad testLabel else groups.getD [])
          >>= fun adW =>
        vsRestEntries wald adW testLabel
          (if falsyList groups then uniqueVals ad testLabel else groups.getD [])
          batchLabel minCellCounts quickScale sizeFactor constrainModel threads
          >>= fun entries =>
        if copyFlag then pure (ad, some entries)
        else pure ({ ad with uns := (updateEntry ad.uns
            (if falsyStr keyAdded then "diffxpyVsRest_" ++ testLabel
              else keyAdded.getD "") entries) }, none)) := rfl

/-- Unfolding lemma for `pairWise`, stated without local lets. -/
theorem pairWise_def (wald : WaldInput → Df) (expM1 : Rat → Rat) (ad : AdM)
    (layer : Option String) (testLabel : String) (groups : Option (List String))
    (batchLabel : Option String) (minCellCounts : Nat) (sizeFactor : Option String)
    (inputIsLog : Bool) (keyAdded : Option String) (quickScale constrainModel : Bool)
    (copyFlag : Bool) :
    pairWise wald expM1 ad layer testLabel groups batchLabel minCellCounts sizeFactor
        inputIsLog keyAdded quickScale constrainModel copyFlag
      = (pairWiseUpper wald
          (pairWisePrepare expM1 ad (if falsyStr layer then "X" else layer.getD "X")
            testLabel (lsUseCol testLabel batchLabel sizeFactor) inputIsLog
            (if falsyList groups then uniqueVals ad testLabel else groups.getD []))
          testLabel
          (if falsyList groups then uniqueVals ad testLabel else groups.getD [])
          batchLabel minCellCounts quickScale sizeFactor constrainModel
          >>= fun upper =>
        pairWiseMirror
          (if falsyList groups then uniqueVals ad testLabel else groups.getD [])
          upper
          >>= fun full =>
        if copyFlag then pure (ad, some full)
        else pure ({ ad with uns := (updateEntry ad.uns
            (if falsyStr keyAdded then "diffxpyPairWise_" ++ testLabel
              else keyAdded.getD "") full) }, none)) := rfl

/-- On success, the `vsRest` dispatch (either concurrency path) produces a
mapping whose keys are the `"__cat"` tag followed by the group list, in
order. -/
theorem vsRestEntries_keys (wald : WaldInput → Df) (adW : AdM) (testLabel : String)
    (groupsR : List String) (batchLabel : Option String) (minCellCounts : Nat)
    (quickScale : Bool) (sizeFactor : Option String) (constrainModel : Bool)
    (threads : Nat) (entries : DeResult)
    (hnd : groupsR.Nodup) (hcat : "__cat" ∉ groupsR)
    (h : vsRestEntries wald adW testLabel groupsR batchLabel minCellCounts
        quickScale sizeFactor constrainModel threads = Except.ok entries) :
    entries.map Prod.fst = "__cat" :: groupsR := by
  have hdis : ∀ g ∈ groupsR,
      g ∉ ([("__cat", UnsVal.str "vsRest")] : DeResult).map Prod.fst := by
    intro g hg hc
    rcases List.mem_singleton.mp hc with rfl
    exact hcat hg
  unfold vsRestEntries at h
  by_cases ht : 1 < threads
  · rw [if_pos ht] at h
    have := foldlM_update_keys
      (fun g => _getDiffxpy wald { adW with X := zerosLike adW.X, sparse := true }
        testLabel g batchLabel minCellCounts quickScale sizeFactor constrainModel
        (some adW.X))
      groupsR [("__cat", UnsVal.str "vsRest")] entries hnd hdis h
    simpa using this
  · rw [if_neg ht] at h
    have := foldlM_update_keys
      (fun g => vsRestSeqGroup wald { adW with sparse := false } testLabel
        batchLabel minCellCounts quickScale sizeFactor constrainModel g)
      groupsR [("__cat", UnsVal.str "vsRest")] entries hnd hdis h
    simpa using this

/-! ## C7 — empty group list -/

/-- C7 (counterexample): `vsRest` called with the explicitly empty group
list `[]` on a two-group collection succeeds with a mapping holding one
entry per distinct group value (`"A"`, `"B"`) beyond the category tag — not
the empty result mapping the claim asserts. -/
theorem C7_empty_groups_counterexample :
    (vsRest waldConst id adTwoCells none "cls" (some []) none 1 none false none
        true false 1 true).toOption.map
      (fun p => p.2.map (fun m => m.map Prod.fst))
      = some (some ["__cat", "A", "B"]) := by
  decide

/-- C7 (amended): an explicitly empty group list is falsy in Python and is
treated exactly like an unspecified one — both `vsRest` and `pairWise`
behave identically on `groups = []` and `groups = None`, the group list
being replaced by all distinct label values; a successful copy-mode `vsRest`
call therefore returns one entry per distinct group-label value after the
category tag (an empty mapping only when the collection has no cells). -/
theorem C7_empty_groups_resolution (wald : WaldInput → Df) (expM1 : Rat → Rat)
    (ad : AdM) (layer : Option String) (testLabel : String)
    (batchLabel : Option String) (minCellCounts : Nat) (sizeFactor : Option String)
    (inputIsLog : Bool) (keyAdded : Option String) (quickScale constrainModel : Bool)
    (threads : Nat) (copyFlag : Bool)
    (hcat : "__cat" ∉ uniqueVals ad testLabel) :
    (vsRest wald expM1 ad layer testLabel (some []) batchLabel minCellCounts
        sizeFactor inputIsLog keyAdded quickScale constrainModel threads copyFlag
      = vsRest wald expM1 ad layer testLabel none batchLabel minCellCounts
        sizeFactor inputIsLog keyAdded quickScale constrainModel threads copyFlag)
    ∧ (pairWise wald expM1 ad layer testLabel (some []) batchLabel minCellCounts
        sizeFactor inputIsLog keyAdded quickScale constrainModel copyFlag
      = pairWise wald expM1 ad layer testLabel none batchLabel minCellCounts
        sizeFactor inputIsLog keyAdded quickScale constrainModel copyFlag)
    ∧ (∀ st m, vsRest wald expM1 ad layer testLabel (some []) batchLabel
        minCellCounts sizeFactor inputIsLog keyAdded quickScale constrainModel
        threads copyFlag = Except.ok (st, some m) →
        m.map Prod.fst = "__cat" :: uniqueVals ad testLabel) := by
  refine ⟨rfl, rfl, ?_⟩
  intro st m h
  rw [vsRest_def] at h
  have hg : (if falsyList (some ([] : List String)) then uniqueVals ad testLabel
      else (some ([] : List String)).getD []) = uniqueVals ad testLabel := rfl
  rw [hg] at h
  cases hprep : vsRestPrepare expM1 ad (if falsyStr layer then "X" else layer.getD "X")
      testLabel (lsUseCol testLabel batchLabel sizeFactor) inputIsLog
      (uniqueVals ad testLabel) with
  | error e =>
      rw [hprep, exceptBind_error] at h
      exact Except.noConfusion h
  | ok adW =>
      simp only [hprep, exceptBind_ok] at h
      cases hent : vsRestEntries wald adW testLabel (uniqueVals ad testLabel)
          batchLabel minCellCounts quickScale sizeFactor constrainModel threads with
      | error e =>
          rw [hent, exceptBind_error] at h
          exact Except.noConfusion h
      | ok entries =>
          simp only [hent, exceptBind_ok] at h
          have hm : entries = m := by
            cases copyFlag with
            | true =>
                have h2 : (Except.ok (ad, some entries) :
                    Except String (AdM × Option DeResult)) = Except.ok (st, some m) := h
                cases h2
                rfl
            | false =>
                have h2 : (none : Option DeResult) = some m := congrArg Prod.snd
                  (Except.ok.inj h)
                exact Option.noConfusion h2
          rw [← hm]
          exact vsRestEntries_keys wald adW testLabel (uniqueVals ad testLabel)
            batchLabel minCellCounts quickScale sizeFactor constrainModel threads
            entries (nodup_uniqueFirst _) hcat hent

/-- C7 (witness): the amended theorem applied to the two-group collection,
`groups = []`, copy mode. -/
theorem C7_empty_groups_witness :
    ([("__cat", UnsVal.str "vsRest"), ("A", UnsVal.df []), ("B", UnsVal.df [])] :
        DeResult).map Prod.fst
      = "__cat" :: uniqueVals adTwoCells "cls" :=
  (C7_empty_groups_resolution waldConst id adTwoCells none "cls" none 1 none
      false none true false 1 true (by decide)).2.2
    adTwoCells
    [("__cat", UnsVal.str "vsRest"), ("A", UnsVal.df []), ("B", UnsVal.df [])]
    (by decide)

/-! ## C8 — log-input count recovery -/

/-- C8 (code bug): with `inputIsLog = true`, the dense branch of `vsRest`
replaces the working matrix elementwise by the count-recovery map
`x ↦ exp(x) - 1` as the claim states — but the sparse branch calls
`ss.linalg.expm`, the matrix exponential, and then subtracts a scalar from a
sparse matrix, both of which raise: on a sparse log-transformed input
`vsRest` fails instead of recovering counts, for any engine, group choice
and thread count. -/
theorem C8_log_recovery_code_bug (expM1 : Rat → Rat) :
    (vsRest waldConst expM1 adTwoSparse none "cls" none none 1 none true none
        true false 1 true
      = Except.error "ss.linalg.expm(adata.X) - 1 raises on sparse input")
    ∧ (∀ (ad : AdM) (layerR testLabel : String) (cols : List (Option String))
        (groupsR : List String), ad.sparse = false →
        vsRestPrepare expM1 ad layerR testLabel cols true groupsR
          = Except.ok (subsetCells
              { genes := (getLayersAdata ad layerR cols).genes
                obsRows := (getLayersAdata ad layerR cols).obsRows
                X := (getLayersAdata ad layerR cols).X.map (fun row => row.map expM1)
                sparse := false
                uns := (getLayersAdata ad layerR cols).uns }
              (fun r => groupsR.contains (getStr r testLabel)))) := by
  constructor
  · rfl
  · intro ad layerR testLabel cols groupsR h
    unfold vsRestPrepare
    have hs : (getLayersAdata ad layerR cols).sparse = false := h
    rw [if_pos rfl, hs]
    rfl

/-! ## getMarker (vsRest) lemmas -/

theorem passCut_iff (qvalue log2fc mean : Rat) (r : DfRow) :
    passCut qvalue log2fc mean r = true
      ↔ (r.qval < qvalue ∧ log2fc < r.log2fc ∧ mean < r.mean) := by
  simp [passCut, and_assoc]

theorem mem_twoSampleFilter (qvalue log2fc mean : Rat) (d : Df) (r : DfRow) :
    r ∈ twoSampleFilter qvalue log2fc mean d
      ↔ r ∈ d ∧ passCut qvalue log2fc mean r = true := by
  unfold twoSampleFilter
  rw [List.mem_insertionSort, List.mem_filter]

theorem sorted_twoSampleFilter (qvalue log2fc mean : Rat) (d : Df) :
    List.Sorted coefGe (twoSampleFilter qvalue log2fc mean d) :=
  List.sorted_insertionSort coefGe _

theorem insertClusterName_untagged (comp : String) (d : Df)
    (h : ∀ r ∈ d, r.clusterName = none) :
    insertClusterName comp d = d.map (fun r => { r with clusterName := some comp }) := by
  unfold insertClusterName
  rw [if_neg]
  intro hc
  obtain ⟨r, hr, hs⟩ := List.any_eq_true.mp hc
  rw [h r hr] at hs
  simp at hs

theorem markerVsRest_fold (qvalue log2fc mean : Rat) :
    ∀ (es : DeResult) (acc : List Df),
      (∀ p ∈ es, p.1 ≠ "__cat" → ∃ d, p.2 = UnsVal.df d) →
      (es.foldlM
        (fun (acc : List Df) p =>
          if p.1 == "__cat" then pure acc
          else
            match p.2 with
            | UnsVal.str _ => Except.error "stored value is not a table"
            | UnsVal.df d =>
                pure (acc ++ [twoSampleFilter qvalue log2fc mean (insertClusterName p.1 d)]))
        acc) = Except.ok (acc ++ vsRestMarkerBlocks qvalue log2fc mean es) := by
  intro es
  induction es with
  | nil =>
      intro acc _
      simp [vsRestMarkerBlocks]
      rfl
  | cons p rest ih =>
      intro acc hdf
      rw [List.foldlM_cons]
      by_cases hp : (p.1 == "__cat") = true
      · have hblocks : vsRestMarkerBlocks qvalue log2fc mean (p :: rest)
            = vsRestMarkerBlocks qvalue log2fc mean rest := by
          unfold vsRestMarkerBlocks
          rw [List.filterMap_cons_none (by simp [hp])]
        rw [hblocks, if_pos hp]
        exact ih acc (fun q hq => hdf q (List.mem_cons_of_mem _ hq))
      · cases hval : p.2 with
        | str s =>
            obtain ⟨d, hd⟩ := hdf p (List.mem_cons_self p rest) (by simpa using hp)
            rw [hval] at hd
            exact UnsVal.noConfusion hd
        | df d =>
            have hblocks : vsRestMarkerBlocks qvalue log2fc mean (p :: rest)
                = twoSampleFilter qvalue log2fc mean (insertClusterName p.1 d)
                  :: vsRestMarkerBlocks qvalue log2fc mean rest := by
              unfold vsRestMarkerBlocks
              rw [List.filterMap_cons_some]
              simp [hp, hval]
            rw [hblocks, if_neg hp]
            have hih := ih (acc ++ [twoSampleFilter qvalue log2fc mean (insertClusterName p.1 d)])
              (fun q hq => hdf q (List.mem_cons_of_mem _ hq))
            show rest.foldlM
                (fun (acc : List Df) p =>
                  if p.1 == "__cat" then pure acc
                  else
                    match p.2 with
                    | UnsVal.str _ => Except.error "stored value is not a table"
                    | UnsVal.df d =>
                        pure (acc ++ [twoSampleFilter qvalue log2fc mean (insertClusterName p.1 d)]))
                (acc ++ [twoSampleFilter qvalue log2fc mean (insertClusterName p.1 d)])
              = Except.ok (acc ++ (twoSampleFilter qvalue log2fc mean (insertClusterName p.1 d)
                  :: vsRestMarkerBlocks qvalue log2fc mean rest))
            rw [hih]
            simp

theorem markerVsRest_eq (qvalue log2fc mean : Rat) (es : DeResult)
    (hdf : ∀ p ∈ es, p.1 ≠ "__cat" → ∃ d, p.2 = UnsVal.df d) :
    markerVsRest es qvalue log2fc mean
      = pdConcat (vsRestMarkerBlocks qvalue log2fc mean es) := by
  unfold markerVsRest
  rw [show (es.foldlM
      (fun (acc : List Df) p =>
        if p.1 == "__cat" then pure acc
        else
          match p.2 with
          | UnsVal.str _ => Except.error "stored value is not a table"
          | UnsVal.df d =>
              pure (acc ++ [twoSampleFilter qvalue log2fc mean (insertClusterName p.1 d)]))
      ([] : List Df)) = Except.ok (([] : List Df) ++ vsRestMarkerBlocks qvalue log2fc mean es)
    from markerVsRest_fold qvalue log2fc mean es [] hdf]
  rw [exceptBind_ok]
  simp

/-- Every row of the concatenated vsRest marker table comes from one mapping
entry: it passes the cutoffs, carries that entry's key as its cluster name,
and belongs to that entry's filtered sorted block. -/
theorem mem_vsRest_blocks (qvalue log2fc mean : Rat) (es : DeResult) (r : DfRow)
    (htags : ∀ p ∈ es, ∀ d, p.2 = UnsVal.df d → ∀ r2 ∈ d, r2.clusterName = none)
    (hmem : r ∈ (vsRestMarkerBlocks qvalue log2fc mean es).flatten) :
    passCut qvalue log2fc mean r = true
    ∧ ∃ p ∈ es, p.1 ≠ "__cat" ∧ r.clusterName = some p.1 := by
  obtain ⟨b, hb, hrb⟩ := List.mem_flatten.mp hmem
  obtain ⟨p, hp, hpb⟩ := List.mem_filterMap.mp hb
  by_cases hcat : (p.1 == "__cat") = true
  · rw [if_pos hcat] at hpb
    exact Option.noConfusion hpb
  · rw [if_neg hcat] at hpb
    cases hval : p.2 with
    | str s =>
        rw [hval] at hpb
        exact Option.noConfusion hpb
    | df d =>
        rw [hval] at hpb
        have hb2 : b = twoSampleFilter qvalue log2fc mean (insertClusterName p.1 d) :=
          (Option.some.inj hpb).symm
        rw [hb2] at hrb
        have hrm := (mem_twoSampleFilter _ _ _ _ _).mp hrb
        refine ⟨hrm.2, p, hp, by simpa using hcat, ?_⟩
        have hins := insertClusterName_untagged p.1 d (htags p hp d hval)
        rw [hins] at hrm
        obtain ⟨r2, _, hr2⟩ := List.mem_map.mp hrm.1
        rw [← hr2]

/-- Rows of other entries' blocks never carry this entry's cluster name:
filtering the flattened table by a name absent from the keys yields `[]`. -/
theorem filter_vsRest_blocks_nil (qvalue log2fc mean : Rat) (es : DeResult)
    (comp : String)
    (htags : ∀ p ∈ es, ∀ d, p.2 = UnsVal.df d → ∀ r2 ∈ d, r2.clusterName = none)
    (hnk : comp ∉ es.map Prod.fst) :
    ((vsRestMarkerBlocks qvalue log2fc mean es).flatten).filter
      (fun r => r.clusterName == some comp) = [] := by
  rw [List.filter_eq_nil_iff]
  intro r hr hc
  obtain ⟨_, p, hp, _, htag⟩ := mem_vsRest_blocks qvalue log2fc mean es r htags hr
  have : r.clusterName = some comp := by simpa using hc
  rw [htag] at this
  have : p.1 = comp := Option.some.inj this
  exact hnk (this ▸ List.mem_map_of_mem Prod.fst hp)

/-- Within one cluster name, the flattened vsRest marker table is sorted
descending on the coefficient estimate. -/
theorem sorted_vsRest_blocks_filter (qvalue log2fc mean : Rat) (comp : String) :
    ∀ (es : DeResult), (es.map Prod.fst).Nodup →
    (∀ p ∈ es, ∀ d, p.2 = UnsVal.df d → ∀ r2 ∈ d, r2.clusterName = none) →
    List.Sorted coefGe
      (((vsRestMarkerBlocks qvalue log2fc mean es).flatten).filter
        (fun r => r.clusterName == some comp)) := by
  intro es
  induction es with
  | nil =>
      intro _ _
      simp [vsRestMarkerBlocks]
  | cons p rest ih =>
      intro hnd htags
      have htagsRest : ∀ q ∈ rest, ∀ d, q.2 = UnsVal.df d → ∀ r2 ∈ d, r2.clusterName = none :=
        fun q hq => htags q (List.mem_cons_of_mem _ hq)
      by_cases hcat : (p.1 == "__cat") = true
      · have hblocks : vsRestMarkerBlocks qvalue log2fc mean (p :: rest)
            = vsRestMarkerBlocks qvalue log2fc mean rest := by
          unfold vsRestMarkerBlocks
          rw [List.filterMap_cons_none (by simp [hcat])]
        rw [hblocks]
        exact ih (List.nodup_cons.mp hnd).2 htagsRest
      · cases hval : p.2 with
        | str s =>
            have hblocks : vsRestMarkerBlocks qvalue log2fc mean (p :: rest)
                = vsRestMarkerBlocks qvalue log2fc mean rest := by
              unfold vsRestMarkerBlocks
              rw [List.filterMap_cons_none (by simp [hcat, hval])]
            rw [hblocks]
            exact ih (List.nodup_cons.mp hnd).2 htagsRest
        | df d =>
            have hblocks : vsRestMarkerBlocks qvalue log2fc mean (p :: rest)
                = twoSampleFilter qvalue log2fc mean (insertClusterName p.1 d)
                  :: vsRestMarkerBlocks qvalue log2fc mean rest := by
              unfold vsRestMarkerBlocks
              rw [List.filterMap_cons_some]
              simp [hcat, hval]
            rw [hblocks, List.flatten_cons, List.filter_append]
            have htagBlock : ∀ r ∈ twoSampleFilter qvalue log2fc mean
                (insertClusterName p.1 d), r.clusterName = some p.1 := by
              intro r hr
              have hrm := (mem_twoSampleFilter _ _ _ _ _).mp hr
              rw [insertClusterName_untagged p.1 d
                (htags p (List.mem_cons_self p rest) d hval)] at hrm
              obtain ⟨r2, _, hr2⟩ := List.mem_map.mp hrm.1
              rw [← hr2]
            by_cases hpc : p.1 = comp
            · have hfull : (twoSampleFilter qvalue log2fc mean
                  (insertClusterName p.1 d)).filter (fun r => r.clusterName == some comp)
                  = twoSampleFilter qvalue log2fc mean (insertClusterName p.1 d) := by
                rw [List.filter_eq_self]
                intro r hr
                simp [htagBlock r hr, hpc]
              have hnil : ((vsRestMarkerBlocks qvalue log2fc mean rest).flatten).filter
                  (fun r => r.clusterName == some comp) = [] := by
                apply filter_vsRest_blocks_nil _ _ _ rest comp htagsRest
                rw [← hpc]
                exact (List.nodup_cons.mp hnd).1
              rw [hfull, hnil, List.append_nil]
              exact sorted_twoSampleFilter _ _ _ _
            · have hnil : (twoSampleFilter qvalue log2fc mean
                  (insertClusterName p.1 d)).filter (fun r => r.clusterName == some comp)
                  = [] := by
                rw [List.filter_eq_nil_iff]
                intro r hr hc
                have : r.clusterName = some comp := by simpa using hc
                rw [htagBlock r hr] at this
                exact hpc (Option.some.inj this)
              rw [hnil, List.nil_append]
              exact ih (List.nodup_cons.mp hnd).2 htagsRest

/-! ## C4 — getMarker in vsRest mode -/

/-- The `getMarker` dispatch on a vsRest-tagged entry. -/
theorem getMarker_vsRest_dispatch (ad : AdM) (key : String)
    (qvalue log2fc mean : Rat) (detectedCounts : Int) (entries : DeResult)
    (huns : lookupEntry ad.uns key = some entries)
    (hcat : lookupEntry entries "__cat" = some (UnsVal.str "vsRest")) :
    getMarker ad key qvalue log2fc mean detectedCounts
      = (markerVsRest entries qvalue log2fc mean
          >>= fun l => pure (MarkerOut.vs l)) := by
  unfold getMarker
  simp only [huns, hcat]

/-- C4: for a vsRest-tagged mapping of untagged engine tables with distinct
keys, every row of the table `getMarker` returns clears all three cutoffs
strictly, carries a source entry's key in its `clusterName` column, and
within each cluster name the rows are sorted descending on `coef_mle`. -/
theorem C4_marker_vsRest (ad : AdM) (key : String) (qvalue log2fc mean : Rat)
    (detectedCounts : Int) (entries : DeResult) (out : List DfRow)
    (huns : lookupEntry ad.uns key = some entries)
    (hcat : lookupEntry entries "__cat" = some (UnsVal.str "vsRest"))
    (hnd : (entries.map Prod.fst).Nodup)
    (hdf : ∀ p ∈ entries, p.1 ≠ "__cat" → ∃ d, p.2 = UnsVal.df d)
    (htags : ∀ p ∈ entries, ∀ d, p.2 = UnsVal.df d → ∀ r2 ∈ d, r2.clusterName = none)
    (hout : getMarker ad key qvalue log2fc mean detectedCounts
      = Except.ok (MarkerOut.vs out)) :
    (∀ r ∈ out, r.qval < qvalue ∧ log2fc < r.log2fc ∧ mean < r.mean)
    ∧ (∀ r ∈ out, ∃ comp, r.clusterName = some comp ∧ comp ≠ "__cat"
        ∧ comp ∈ entries.map Prod.fst)
    ∧ (∀ comp, List.Sorted coefGe
        (out.filter (fun r => r.clusterName == some comp))) := by
  rw [getMarker_vsRest_dispatch ad key qvalue log2fc mean detectedCounts entries
      huns hcat,
    markerVsRest_eq qvalue log2fc mean entries hdf] at hout
  have hflat : out = (vsRestMarkerBlocks qvalue log2fc mean entries).flatten := by
    unfold pdConcat at hout
    by_cases hemp : (vsRestMarkerBlocks qvalue log2fc mean entries).isEmpty = true
    · rw [if_pos hemp, exceptBind_error] at hout
      exact Except.noConfusion hout
    · rw [if_neg hemp, exceptBind_ok] at hout
      have h2 : MarkerOut.vs (vsRestMarkerBlocks qvalue log2fc mean entries).flatten
          = MarkerOut.vs out := Except.ok.inj hout
      exact (MarkerOut.vs.inj h2).symm
  refine ⟨?_, ?_, ?_⟩
  · intro r hr
    rw [hflat] at hr
    have := (mem_vsRest_blocks qvalue log2fc mean entries r htags hr).1
    exact (passCut_iff qvalue log2fc mean r).mp this
  · intro r hr
    rw [hflat] at hr
    obtain ⟨_, p, hp, hpc, htag⟩ :=
      mem_vsRest_blocks qvalue log2fc mean entries r htags hr
    exact ⟨p.1, htag, hpc, List.mem_map_of_mem Prod.fst hp⟩
  · intro comp
    rw [hflat]
    exact sorted_vsRest_blocks_filter qvalue log2fc mean comp entries hnd htags

/-- C4 (witness): the theorem applied to a concrete vsRest mapping over two
groups; `getMarker` returns the A-block sorted descending on `coef_mle`
followed by the B-block. -/
theorem C4_marker_vsRest_witness :
    ([mkRowT "A" "g2" 0 1 1 2, mkRowT "A" "g1" 0 1 1 1,
        mkRowT "B" "g1" 0 1 1 1].all (passCut 1 0 0)) = true := by
  have h := (C4_marker_vsRest adVs "k" 1 0 0 (-1) vsMap
    [mkRowT "A" "g2" 0 1 1 2, mkRowT "A" "g1" 0 1 1 1, mkRowT "B" "g1" 0 1 1 1]
    (by decide) (by decide) (by decide)
    (by
      intro p hp hne
      simp only [vsMap, List.mem_cons, List.not_mem_nil, or_false] at hp
      rcases hp with rfl | rfl | rfl
      · exact absurd rfl hne
      · exact ⟨_, rfl⟩
      · exact ⟨_, rfl⟩)
    (by
      intro p hp d hd r2 hr2
      simp only [vsMap, List.mem_cons, List.not_mem_nil, or_false] at hp
      rcases hp with rfl | rfl | rfl
      · exact absurd hd (by simp)
      · cases UnsVal.df.inj hd
        simp only [List.mem_cons, List.not_mem_nil, or_false] at hr2
        rcases hr2 with rfl | rfl
        · rfl
        · rfl
      · cases UnsVal.df.inj hd
        simp only [List.mem_cons, List.not_mem_nil, or_false] at hr2
        rcases hr2 with rfl
        rfl)
    (by decide)).1
  rw [List.all_eq_true]
  intro r hr
  obtain ⟨h1, h2, h3⟩ := h r hr
  simp only [passCut, Bool.and_eq_true, decide_eq_true_eq]
  exact ⟨⟨h1, h2⟩, h3⟩

/-! ## pairWise lemmas -/

theorem getD_of_lt {α : Type} (l : List α) (d : α) (i : Nat) (h : i < l.length) :
    l.getD i d = l[i] := by
  rw [List.getD_eq_getElem?_getD, List.getElem?_eq_getElem h]
  rfl

theorem mem_indexPairs (n x y : Nat) :
    (x, y) ∈ indexPairs n ↔ x < n ∧ y < n := by
  unfold indexPairs
  rw [List.mem_flatMap]
  constructor
  · rintro ⟨a, ha, hmem⟩
    obtain ⟨b, hb, heq⟩ := List.mem_map.mp hmem
    obtain ⟨rfl, rfl⟩ := Prod.mk.inj heq.symm
    exact ⟨List.mem_range.mp ha, List.mem_range.mp hb⟩
  · rintro ⟨hx, hy⟩
    exact ⟨x, List.mem_range.mpr hx,
      List.mem_map.mpr ⟨y, List.mem_range.mpr hy, rfl⟩⟩

theorem testKey_ne_cat (a b : String) : testKey a b ≠ "__cat" := by
  intro h
  have h2 := congrArg String.data h
  unfold testKey at h2
  rw [String.data_append, String.data_append, String.data_append] at h2
  injection h2 with h3 _
  exact absurd h3 (by decide)

/-- Stability of the upper-triangle fold: a key already mapping to a table
keeps that table provided every later write to the same key writes the same
table. -/
theorem pairWiseUpper_stable (wald : WaldInput → Df) (adW : AdM)
    (testLabel : String) (groupsR : List String) (batchLabel : Option String)
    (minCellCounts : Nat) (quickScale : Bool) (sizeFactor : Option String)
    (constrainModel : Bool) :
    ∀ (ps : List (Nat × Nat)) (acc res : DeResult) (k : String) (t : Df),
      (ps.foldlM
        (fun acc xy =>
          if xy.2 ≤ xy.1 then pure acc
          else do
            let df ← pairTest wald adW testLabel batchLabel minCellCounts quickScale
              sizeFactor constrainModel (groupsR.getD xy.1 "") (groupsR.getD xy.2 "")
            pure (updateEntry acc
              (testKey (groupsR.getD xy.1 "") (groupsR.getD xy.2 "")) (UnsVal.df df)))
        acc) = Except.ok res →
      lookupEntry acc k = some (UnsVal.df t) →
      (∀ xy ∈ ps, xy.1 < xy.2 →
        testKey (groupsR.getD xy.1 "") (groupsR.getD xy.2 "") = k →
        pairTest wald adW testLabel batchLabel minCellCounts quickScale sizeFactor
          constrainModel (groupsR.getD xy.1 "") (groupsR.getD xy.2 "")
          = Except.ok t) →
      lookupEntry res k = some (UnsVal.df t) := by
  intro ps
  induction ps with
  | nil =>
      intro acc res k t h hacc _
      rw [List.foldlM_nil] at h
      cases h
      exact hacc
  | cons xy rest ih =>
      intro acc res k t h hacc hcons
      rw [List.foldlM_cons] at h
      by_cases hskip : xy.2 ≤ xy.1
      · rw [if_pos hskip] at h
        exact ih acc res k t h hacc
          (fun q hq => hcons q (List.mem_cons_of_mem _ hq))
      · rw [if_neg hskip] at h
        cases hpt : pairTest wald adW testLabel batchLabel minCellCounts quickScale
            sizeFactor constrainModel (groupsR.getD xy.1 "") (groupsR.getD xy.2 "") with
        | error e =>
            rw [hpt] at h
            exact Except.noConfusion h
        | ok df =>
            rw [hpt] at h
            have h2 : rest.foldlM _ (updateEntry acc
                (testKey (groupsR.getD xy.1 "") (groupsR.getD xy.2 ""))
                (UnsVal.df df)) = Except.ok res := h
            by_cases hk : testKey (groupsR.getD xy.1 "") (groupsR.getD xy.2 "") = k
            · have hdf : df = t := by
                have := hcons xy (List.mem_cons_self xy rest)
                  (Nat.lt_of_not_le hskip) hk
                rw [hpt] at this
                exact Except.ok.inj this
              refine ih _ res k t h2 ?_
                (fun q hq => hcons q (List.mem_cons_of_mem _ hq))
              rw [hk, hdf]
              exact lookupEntry_updateEntry_self acc k (UnsVal.df t)
            · refine ih _ res k t h2 ?_
                (fun q hq => hcons q (List.mem_cons_of_mem _ hq))
              rw [lookupEntry_updateEntry_ne acc _ k _ (Ne.symm hk)]
              exact hacc

/-- The upper-triangle fold writes each in-range upper pair's test table
under its key. -/
theorem pairWiseUpper_lookup (wald : WaldInput → Df) (adW : AdM)
    (testLabel : String) (groupsR : List String) (batchLabel : Option String)
    (minCellCounts : Nat) (quickScale : Bool) (sizeFactor : Option String)
    (constrainModel : Bool) :
    ∀ (ps : List (Nat × Nat)) (acc res : DeResult) (i j : Nat),
      (ps.foldlM
        (fun acc xy =>
          if xy.2 ≤ xy.1 then pure acc
          else do
            let df ← pairTest wald adW testLabel batchLabel minCellCounts quickScale
              sizeFactor constrainModel (groupsR.getD xy.1 "") (groupsR.getD xy.2 "")
            pure (updateEntry acc
              (testKey (groupsR.getD xy.1 "") (groupsR.getD xy.2 "")) (UnsVal.df df)))
        acc) = Except.ok res →
      i < j → (i, j) ∈ ps →
      (∀ xy ∈ ps, xy.1 < xy.2 →
        testKey (groupsR.getD xy.1 "") (groupsR.getD xy.2 "")
          = testKey (groupsR.getD i "") (groupsR.getD j "") →
        groupsR.getD xy.1 "" = groupsR.getD i "" ∧
          groupsR.getD xy.2 "" = groupsR.getD j "") →
      ∃ t, pairTest wald adW testLabel batchLabel minCellCounts quickScale sizeFactor
          constrainModel (groupsR.getD i "") (groupsR.getD j "") = Except.ok t
        ∧ lookupEntry res (testKey (groupsR.getD i "") (groupsR.getD j ""))
            = some (UnsVal.df t) := by
  intro ps
  induction ps with
  | nil =>
      intro acc res i j _ _ hmem _
      exact absurd hmem (List.not_mem_nil _)
  | cons xy rest ih =>
      intro acc res i j h hij hmem hkeys
      rw [List.foldlM_cons] at h
      by_cases hskip : xy.2 ≤ xy.1
      · rw [if_pos hskip] at h
        rcases List.mem_cons.mp hmem with heq | hmem2
        · exfalso
          have hx1 : xy.1 = i := by rw [← heq]
          have hx2 : xy.2 = j := by rw [← heq]
          rw [hx1, hx2] at hskip
          exact absurd hij (Nat.not_lt.mpr hskip)
        · exact ih acc res i j h hij hmem2
            (fun q hq => hkeys q (List.mem_cons_of_mem _ hq))
      · rw [if_neg hskip] at h
        cases hpt : pairTest wald adW testLabel batchLabel minCellCounts quickScale
            sizeFactor constrainModel (groupsR.getD xy.1 "") (groupsR.getD xy.2 "") with
        | error e =>
            rw [hpt] at h
            exact Except.noConfusion h
        | ok df =>
            rw [hpt] at h
            have h2 : rest.foldlM _ (updateEntry acc
                (testKey (groupsR.getD xy.1 "") (groupsR.getD xy.2 ""))
                (UnsVal.df df)) = Except.ok res := h
            rcases List.mem_cons.mp hmem with heq | hmem2
            · have hx1 : xy.1 = i := by rw [← heq]
              have hx2 : xy.2 = j := by rw [← heq]
              rw [hx1, hx2] at hpt h2
              refine ⟨df, hpt, ?_⟩
              refine pairWiseUpper_stable wald adW testLabel groupsR batchLabel
                minCellCounts quickScale sizeFactor constrainModel rest _ res _ df h2
                ?_ ?_
              · exact lookupEntry_updateEntry_self acc _ (UnsVal.df df)
              · intro q hq hqlt hqk
                have hvals := hkeys q (List.mem_cons_of_mem _ hq) hqlt hqk
                rw [hvals.1, hvals.2]
                exact hpt
            · exact ih _ res i j h2 hij hmem2
                (fun q hq => hkeys q (List.mem_cons_of_mem _ hq))

/-- Stability of the mirroring fold: the upper key keeps its table (never
written), and the lower key keeps its negated table (only ever rewritten to
the same value). -/
theorem pairWiseMirror_preserve (groupsR : List String) :
    ∀ (ps : List (Nat × Nat)) (acc res : DeResult) (ku k : String) (t : Df),
      (ps.foldlM
        (fun acc xy =>
          if xy.1 ≤ xy.2 then pure acc
          else
            match lookupEntry acc
                (testKey (groupsR.getD xy.2 "") (groupsR.getD xy.1 "")) with
            | some (UnsVal.df t) =>
                pure (updateEntry acc
                  (testKey (groupsR.getD xy.1 "") (groupsR.getD xy.2 ""))
                  (UnsVal.df (negLog2fc t)))
            | _ => Except.error "KeyError")
        acc) = Except.ok res →
      lookupEntry acc ku = some (UnsVal.df t) →
      lookupEntry acc k = some (UnsVal.df (negLog2fc t)) →
      (∀ xy ∈ ps, xy.2 < xy.1 →
        testKey (groupsR.getD xy.1 "") (groupsR.getD xy.2 "") ≠ ku) →
      (∀ xy ∈ ps, xy.2 < xy.1 →
        testKey (groupsR.getD xy.1 "") (groupsR.getD xy.2 "") = k →
        testKey (groupsR.getD xy.2 "") (groupsR.getD xy.1 "") = ku) →
      lookupEntry res ku = some (UnsVal.df t)
        ∧ lookupEntry res k = some (UnsVal.df (negLog2fc t)) := by
  intro ps
  induction ps with
  | nil =>
      intro acc res ku k t h hku hk _ _
      rw [List.foldlM_nil] at h
      cases h
      exact ⟨hku, hk⟩
  | cons xy rest ih =>
      intro acc res ku k t h hku hk hkus hks
      rw [List.foldlM_cons] at h
      by_cases hskip : xy.1 ≤ xy.2
      · rw [if_pos hskip] at h
        exact ih acc res ku k t h hku hk
          (fun q hq => hkus q (List.mem_cons_of_mem _ hq))
          (fun q hq => hks q (List.mem_cons_of_mem _ hq))
      · rw [if_neg hskip] at h
        have hlt : xy.2 < xy.1 := Nat.lt_of_not_le hskip
        cases hread : lookupEntry acc
            (testKey (groupsR.getD xy.2 "") (groupsR.getD xy.1 "")) with
        | none =>
            rw [hread] at h
            exact Except.noConfusion h
        | some v =>
            cases v with
            | str s =>
                rw [hread] at h
                exact Except.noConfusion h
            | df tr =>
                rw [hread] at h
                have h2 : rest.foldlM _ (updateEntry acc
                    (testKey (groupsR.getD xy.1 "") (groupsR.getD xy.2 ""))
                    (UnsVal.df (negLog2fc tr))) = Except.ok res := h
                have hkune := hkus xy (List.mem_cons_self xy rest) hlt
                have hku2 : lookupEntry (updateEntry acc
                    (testKey (groupsR.getD xy.1 "") (groupsR.getD xy.2 ""))
                    (UnsVal.df (negLog2fc tr))) ku = some (UnsVal.df t) := by
                  rw [lookupEntry_updateEntry_ne acc _ ku _ (Ne.symm hkune)]
                  exact hku
                by_cases hkk : testKey (groupsR.getD xy.1 "") (groupsR.getD xy.2 "") = k
                · have hrku := hks xy (List.mem_cons_self xy rest) hlt hkk
                  rw [hrku] at hread
                  have htr : tr = t := by
                    rw [hread] at hku
                    exact UnsVal.df.inj (Option.some.inj hku)
                  have hk2 : lookupEntry (updateEntry acc
                      (testKey (groupsR.getD xy.1 "") (groupsR.getD xy.2 ""))
                      (UnsVal.df (negLog2fc tr))) k
                      = some (UnsVal.df (negLog2fc t)) := by
                    rw [hkk, htr]
                    exact lookupEntry_updateEntry_self acc k _
                  refine ih _ res ku k t h2 hku2 hk2
                    (fun q hq => hkus q (List.mem_cons_of_mem _ hq))
                    (fun q hq => hks q (List.mem_cons_of_mem _ hq))
                · have hk2 : lookupEntry (updateEntry acc
                      (testKey (groupsR.getD xy.1 "") (groupsR.getD xy.2 ""))
                      (UnsVal.df (negLog2fc tr))) k
                      = some (UnsVal.df (negLog2fc t)) := by
                    rw [lookupEntry_updateEntry_ne acc _ k _ (Ne.symm hkk)]
                    exact hk
                  exact ih _ res ku k t h2 hku2 hk2
                    (fun q hq => hkus q (List.mem_cons_of_mem _ hq))
                    (fun q hq => hks q (List.mem_cons_of_mem _ hq))

/-- The mirroring fold writes, under each lower pair's key, the sign-flip of
the mirrored upper table, and leaves the upper table in place. -/
theorem pairWiseMirror_lookup (groupsR : List String) :
    ∀ (ps : List (Nat × Nat)) (acc res : DeResult) (i j : Nat) (t : Df),
      (ps.foldlM
        (fun acc xy =>
          if xy.1 ≤ xy.2 then pure acc
          else
            match lookupEntry acc
                (testKey (groupsR.getD xy.2 "") (groupsR.getD xy.1 "")) with
            | some (UnsVal.df t) =>
                pure (updateEntry acc
                  (testKey (groupsR.getD xy.1 "") (groupsR.getD xy.2 ""))
                  (UnsVal.df (negLog2fc t)))
            | _ => Except.error "KeyError")
        acc) = Except.ok res →
      i < j → (j, i) ∈ ps →
      lookupEntry acc (testKey (groupsR.getD i "") (groupsR.getD j ""))
        = some (UnsVal.df t) →
      (∀ xy ∈ ps, xy.2 < xy.1 →
        testKey (groupsR.getD xy.1 "") (groupsR.getD xy.2 "")
          ≠ testKey (groupsR.getD i "") (groupsR.getD j "")) →
      (∀ xy ∈ ps, xy.2 < xy.1 →
        testKey (groupsR.getD xy.1 "") (groupsR.getD xy.2 "")
          = testKey (groupsR.getD j "") (groupsR.getD i "") →
        testKey (groupsR.getD xy.2 "") (groupsR.getD xy.1 "")
          = testKey (groupsR.getD i "") (groupsR.getD j "")) →
      lookupEntry res (testKey (groupsR.getD j "") (groupsR.getD i ""))
          = some (UnsVal.df (negLog2fc t))
        ∧ lookupEntry res (testKey (groupsR.getD i "") (groupsR.getD j ""))
            = some (UnsVal.df t) := by
  intro ps
  induction ps with
  | nil =>
      intro acc res i j t _ _ hmem _ _ _
      exact absurd hmem (List.not_mem_nil _)
  | cons xy rest ih =>
      intro acc res i j t h hij hmem hupper hkus hks
      rw [List.foldlM_cons] at h
      rcases List.mem_cons.mp hmem with heq | hmem2
      · -- this step is the pair (j, i): it writes the mirrored entry
        have hx1 : xy.1 = j := by rw [← heq]
        have hx2 : xy.2 = i := by rw [← heq]
        rw [hx1, hx2] at h
        rw [if_neg (Nat.not_le.mpr hij)] at h
        cases hread : lookupEntry acc
            (testKey (groupsR.getD i "") (groupsR.getD j "")) with
        | none =>
            rw [hread] at h
            exact Except.noConfusion h
        | some v =>
            cases v with
            | str s =>
                rw [hread] at h
                exact Except.noConfusion h
            | df tr =>
                rw [hread] at h
                have htr : tr = t := by
                  rw [hread] at hupper
                  exact UnsVal.df.inj (Option.some.inj hupper)
                rw [htr] at h
                have h2 : rest.foldlM _ (updateEntry acc
                    (testKey (groupsR.getD j "") (groupsR.getD i ""))
                    (UnsVal.df (negLog2fc t))) = Except.ok res := h
                have hkune : testKey (groupsR.getD j "") (groupsR.getD i "")
                    ≠ testKey (groupsR.getD i "") (groupsR.getD j "") := by
                  have := hkus xy (List.mem_cons_self xy rest)
                    (by rw [hx1, hx2]; exact hij)
                  rw [hx1, hx2] at this
                  exact this
                have hku2 : lookupEntry (updateEntry acc
                    (testKey (groupsR.getD j "") (groupsR.getD i ""))
                    (UnsVal.df (negLog2fc t)))
                    (testKey (groupsR.getD i "") (groupsR.getD j ""))
                    = some (UnsVal.df t) := by
                  rw [lookupEntry_updateEntry_ne acc _ _ _ (Ne.symm hkune)]
                  exact hupper
                have hk2 : lookupEntry (updateEntry acc
                    (testKey (groupsR.getD j "") (groupsR.getD i ""))
                    (UnsVal.df (negLog2fc t)))
                    (testKey (groupsR.getD j "") (groupsR.getD i ""))
                    = some (UnsVal.df (negLog2fc t)) :=
                  lookupEntry_updateEntry_self acc _ _
                have hpres := pairWiseMirror_preserve groupsR rest _ res
                  (testKey (groupsR.getD i "") (groupsR.getD j ""))
                  (testKey (groupsR.getD j "") (groupsR.getD i "")) t h2 hku2 hk2
                  (fun q hq => hkus q (List.mem_cons_of_mem _ hq))
                  (fun q hq => hks q (List.mem_cons_of_mem _ hq))
                exact ⟨hpres.2, hpres.1⟩
      · by_cases hskip : xy.1 ≤ xy.2
        · rw [if_pos hskip] at h
          exact ih acc res i j t h hij hmem2 hupper
            (fun q hq => hkus q (List.mem_cons_of_mem _ hq))
            (fun q hq => hks q (List.mem_cons_of_mem _ hq))
        · rw [if_neg hskip] at h
          have hlt : xy.2 < xy.1 := Nat.lt_of_not_le hskip
          cases hread : lookupEntry acc
              (testKey (groupsR.getD xy.2 "") (groupsR.getD xy.1 "")) with
          | none =>
              rw [hread] at h
              exact Except.noConfusion h
          | some v =>
              cases v with
              | str s =>
                  rw [hread] at h
                  exact Except.noConfusion h
              | df tr =>
                  rw [hread] at h
                  have h2 : rest.foldlM _ (updateEntry acc
                      (testKey (groupsR.getD xy.1 "") (groupsR.getD xy.2 ""))
                      (UnsVal.df (negLog2fc tr))) = Except.ok res := h
                  have hkune := hkus xy (List.mem_cons_self xy rest) hlt
                  have hku2 : lookupEntry (updateEntry acc
                      (testKey (groupsR.getD xy.1 "") (groupsR.getD xy.2 ""))
                      (UnsVal.df (negLog2fc tr)))
                      (testKey (groupsR.getD i "") (groupsR.getD j ""))
                      = some (UnsVal.df t) := by
                    rw [lookupEntry_updateEntry_ne acc _ _ _ (Ne.symm hkune)]
                    exact hupper
                  exact ih _ res i j t h2 hij hmem2 hku2
                    (fun q hq => hkus q (List.mem_cons_of_mem _ hq))
                    (fun q hq => hks q (List.mem_cons_of_mem _ hq))

theorem negLog2fc_cols (t : Df) :
    (negLog2fc t).map DfRow.gene = t.map DfRow.gene
    ∧ (negLog2fc t).map DfRow.qval = t.map DfRow.qval
    ∧ (negLog2fc t).map DfRow.mean = t.map DfRow.mean
    ∧ (negLog2fc t).map DfRow.coef_mle = t.map DfRow.coef_mle
    ∧ (negLog2fc t).map DfRow.log2fc = t.map (fun r => -r.log2fc) := by
  refine ⟨?_, ?_, ?_, ?_, ?_⟩ <;> simp [negLog2fc, List.map_map]

/-! ## C2 — pairWise mirroring -/

/-- C2: in a successful copy-mode `pairWise` run over distinct groups whose
names keep the `test_…_bg_…` keys unambiguous, for `A = gs[i]` listed before
`B = gs[j]` the mapping stores under `test_A_bg_B` exactly the computed
table `t`, and under `test_B_bg_A` a fresh copy of `t` with only its
`log2fc` column negated: genes, `qval`, `mean` and `coef_mle` columns are
elementwise identical, `log2fc` is the elementwise negation, and the
`test_A_bg_B` entry itself is left unchanged by the mirroring. -/
theorem C2_pairwise_mirror (wald : WaldInput → Df) (expM1 : Rat → Rat) (ad : AdM)
    (layer : Option String) (testLabel : String) (gs : List String)
    (batchLabel : Option String) (minCellCounts : Nat) (sizeFactor : Option String)
    (inputIsLog : Bool) (keyAdded : Option String) (quickScale constrainModel : Bool)
    (i j : Nat) (st : AdM) (m : DeResult)
    (hij : i < j) (hj : j < gs.length)
    (hnd : gs.Nodup)
    (hinj : ∀ a ∈ gs, ∀ b ∈ gs, ∀ c ∈ gs, ∀ e ∈ gs,
      testKey a b = testKey c e → a = c ∧ b = e)
    (hrun : pairWise wald expM1 ad layer testLabel (some gs) batchLabel minCellCounts
        sizeFactor inputIsLog keyAdded quickScale constrainModel true
      = Except.ok (st, some m)) :
    ∃ t,
      pairTest wald
          (pairWisePrepare expM1 ad (if falsyStr layer then "X" else layer.getD "X")
            testLabel (lsUseCol testLabel batchLabel sizeFactor) inputIsLog gs)
          testLabel batchLabel minCellCounts quickScale sizeFactor constrainModel
          (gs.getD i "") (gs.getD j "") = Except.ok t
      ∧ lookupEntry m (testKey (gs.getD i "") (gs.getD j "")) = some (UnsVal.df t)
      ∧ lookupEntry m (testKey (gs.getD j "") (gs.getD i ""))
          = some (UnsVal.df (negLog2fc t))
      ∧ (negLog2fc t).map DfRow.gene = t.map DfRow.gene
      ∧ (negLog2fc t).map DfRow.qval = t.map DfRow.qval
      ∧ (negLog2fc t).map DfRow.mean = t.map DfRow.mean
      ∧ (negLog2fc t).map DfRow.coef_mle = t.map DfRow.coef_mle
      ∧ (negLog2fc t).map DfRow.log2fc = t.map (fun r => -r.log2fc) := by
  have hi : i < gs.length := Nat.lt_trans hij hj
  have hgs : gs ≠ [] := by
    intro hgs0
    rw [hgs0] at hj
    simp at hj
  have hg : (if falsyList (some gs) then uniqueVals ad testLabel
      else (some gs).getD []) = gs := by
    cases gs with
    | nil => exact absurd rfl hgs
    | cons a l => rfl
  have hmemg : ∀ x : Nat, x < gs.length → gs.getD x "" ∈ gs := by
    intro x hx
    rw [getD_of_lt gs "" x hx]
    exact List.getElem_mem hx
  have hidx : ∀ x y : Nat, x < gs.length → y < gs.length →
      gs.getD x "" = gs.getD y "" → x = y := by
    intro x y hx hy he
    rw [getD_of_lt gs "" x hx, getD_of_lt gs "" y hy] at he
    exact (List.Nodup.getElem_inj_iff hnd).mp he
  rw [pairWise_def, hg] at hrun
  cases hup : pairWiseUpper wald
      (pairWisePrepare expM1 ad (if falsyStr layer then "X" else layer.getD "X")
        testLabel (lsUseCol testLabel batchLabel sizeFactor) inputIsLog gs)
      testLabel gs batchLabel minCellCounts quickScale sizeFactor constrainModel with
  | error e =>
      rw [hup, exceptBind_error] at hrun
      exact Except.noConfusion hrun
  | ok upper =>
      simp only [hup, exceptBind_ok] at hrun
      cases hmir : pairWiseMirror gs upper with
      | error e =>
          rw [hmir, exceptBind_error] at hrun
          exact Except.noConfusion hrun
      | ok full =>
          simp only [hmir, exceptBind_ok] at hrun
          have hfull : full = m := by
            have h2 : (none : Option DeResult) ≠ some full := by simp
            have h3 : (ad, some full) = (st, some m) := Except.ok.inj hrun
            have h4 : some full = some m := congrArg Prod.snd h3
            exact Option.some.inj h4
          unfold pairWiseUpper at hup
          obtain ⟨t, hpt, hlookU⟩ := pairWiseUpper_lookup wald
            (pairWisePrepare expM1 ad (if falsyStr layer then "X" else layer.getD "X")
              testLabel (lsUseCol testLabel batchLabel sizeFactor) inputIsLog gs)
            testLabel gs batchLabel minCellCounts quickScale sizeFactor constrainModel
            (indexPairs gs.length) [("__cat", UnsVal.str "pairWise")] upper i j hup hij
            ((mem_indexPairs gs.length i j).mpr ⟨hi, hj⟩)
            (by
              intro q hq hqlt hqk
              obtain ⟨hq1, hq2⟩ := (mem_indexPairs gs.length q.1 q.2).mp hq
              exact hinj _ (hmemg q.1 hq1) _ (hmemg q.2 hq2)
                _ (hmemg i hi) _ (hmemg j hj) hqk)
          unfold pairWiseMirror at hmir
          have hmirror := pairWiseMirror_lookup gs (indexPairs gs.length) upper full
            i j t hmir hij
            ((mem_indexPairs gs.length j i).mpr ⟨hj, hi⟩)
            hlookU
            (by
              intro q hq hqlt hqk
              obtain ⟨hq1, hq2⟩ := (mem_indexPairs gs.length q.1 q.2).mp hq
              obtain ⟨he1, he2⟩ := hinj _ (hmemg q.1 hq1) _ (hmemg q.2 hq2)
                _ (hmemg i hi) _ (hmemg j hj) hqk
              have hq1i := hidx q.1 i hq1 hi he1
              have hq2j := hidx q.2 j hq2 hj he2
              rw [hq1i, hq2j] at hqlt
              exact absurd hij (Nat.not_lt.mpr (Nat.le_of_lt hqlt))
              )
            (by
              intro q hq hqlt hqk
              obtain ⟨hq1, hq2⟩ := (mem_indexPairs gs.length q.1 q.2).mp hq
              obtain ⟨he1, he2⟩ := hinj _ (hmemg q.1 hq1) _ (hmemg q.2 hq2)
                _ (hmemg j hj) _ (hmemg i hi) hqk
              rw [he1, he2])
          obtain ⟨hcols1, hcols2, hcols3, hcols4, hcols5⟩ := negLog2fc_cols t
          exact ⟨t, hpt, hfull ▸ hmirror.2, hfull ▸ hmirror.1,
            hcols1, hcols2, hcols3, hcols4, hcols5⟩

/-- C2 (witness): the mirroring theorem applied to a concrete two-group
copy-mode run. -/
theorem C2_pairwise_mirror_witness :
    lookupEntry pwMap2 (testKey "A" "B") = some (UnsVal.df ([] : Df))
    ∧ lookupEntry pwMap2 (testKey "B" "A")
        = some (UnsVal.df (negLog2fc ([] : Df))) := by
  obtain ⟨t, hpt, hU, hL, _⟩ := C2_pairwise_mirror waldConst id adTwoCells none
    "cls" ["A", "B"] none 1 none false none true false 0 1 adTwoCells pwMap2
    (by decide) (by decide) (by decide) (by decide) (by decide)
  have hpt2 : pairTest waldConst
      (pairWisePrepare id adTwoCells
        (if falsyStr none then "X" else (none : Option String).getD "X") "cls"
        (lsUseCol "cls" none none) false ["A", "B"])
      "cls" none 1 true none false
      (["A", "B"].getD 0 "") (["A", "B"].getD 1 "") = Except.ok ([] : Df) := by
    decide
  rw [hpt2] at hpt
  have ht : t = [] := (Except.ok.inj hpt).symm
  rw [ht] at hU hL
  exact ⟨hU, hL⟩

/-! ## C9 — copy flag frame conditions -/

/-- C9: with the copy flag set, a successful `vsRest` or `pairWise` call
returns exactly the mapping its dispatch freshly built — for `vsRest` the
`vsRestEntries` output on the working collection this call prepared, for
`pairWise` the `pairWiseMirror`-completed upper triangle — and leaves the
caller's collection exactly as it was; with the flag unset it returns
`None` and the only change to the caller's state is that the
metadata-store entry at the result key now holds that freshly built
mapping — matrix, annotation table, genes, sparsity and every other
metadata key are untouched.  (Reads of the working collection go through
the layer-extraction collaborator, which returns a fresh reduced
collection, so the caller's objects are never mutated.) -/
theorem C9_copy_frame (wald : WaldInput → Df) (expM1 : Rat → Rat) (ad : AdM)
    (layer : Option String) (testLabel : String) (groups : Option (List String))
    (batchLabel : Option String) (minCellCounts : Nat) (sizeFactor : Option String)
    (inputIsLog : Bool) (keyAdded : Option String) (quickScale constrainModel : Bool)
    (threads : Nat) :
    (∀ st r, vsRest wald expM1 ad layer testLabel groups batchLabel minCellCounts
        sizeFactor inputIsLog keyAdded quickScale constrainModel threads true
        = Except.ok (st, r) → st = ad ∧ ∃ adW m,
          vsRestPrepare expM1 ad (if falsyStr layer then "X" else layer.getD "X")
              testLabel (lsUseCol testLabel batchLabel sizeFactor) inputIsLog
              (if falsyList groups then uniqueVals ad testLabel else groups.getD [])
            = Except.ok adW
          ∧ vsRestEntries wald adW testLabel
              (if falsyList groups then uniqueVals ad testLabel else groups.getD [])
              batchLabel minCellCounts quickScale sizeFactor constrainModel threads
            = Except.ok m
          ∧ r = some m)
    ∧ (∀ st r, pairWise wald expM1 ad layer testLabel groups batchLabel minCellCounts
        sizeFactor inputIsLog keyAdded quickScale constrainModel true
        = Except.ok (st, r) → st = ad ∧ ∃ upper m,
          pairWiseUpper wald
              (pairWisePrepare expM1 ad (if falsyStr layer then "X" else layer.getD "X")
                testLabel (lsUseCol testLabel batchLabel sizeFactor) inputIsLog
                (if falsyList groups then uniqueVals ad testLabel else groups.getD []))
              testLabel
              (if falsyList groups then uniqueVals ad testLabel else groups.getD [])
              batchLabel minCellCounts quickScale sizeFactor constrainModel
            = Except.ok upper
          ∧ pairWiseMirror
              (if falsyList groups then uniqueVals ad testLabel else groups.getD [])
              upper
            = Except.ok m
          ∧ r = some m)
    ∧ (∀ st r, vsRest wald expM1 ad layer testLabel groups batchLabel minCellCounts
        sizeFactor inputIsLog keyAdded quickScale constrainModel threads false
        = Except.ok (st, r) →
        r = none ∧ st.X = ad.X ∧ st.obsRows = ad.obsRows ∧ st.genes = ad.genes
        ∧ st.sparse = ad.sparse
        ∧ (∀ k, k ≠ (if falsyStr keyAdded then "diffxpyVsRest_" ++ testLabel
            else keyAdded.getD "") →
            lookupEntry st.uns k = lookupEntry ad.uns k)
        ∧ ∃ adW m,
          vsRestPrepare expM1 ad (if falsyStr layer then "X" else layer.getD "X")
              testLabel (lsUseCol testLabel batchLabel sizeFactor) inputIsLog
              (if falsyList groups then uniqueVals ad testLabel else groups.getD [])
            = Except.ok adW
          ∧ vsRestEntries wald adW testLabel
              (if falsyList groups then uniqueVals ad testLabel else groups.getD [])
              batchLabel minCellCounts quickScale sizeFactor constrainModel threads
            = Except.ok m
          ∧ lookupEntry st.uns
              (if falsyStr keyAdded then "diffxpyVsRest_" ++ testLabel
                else keyAdded.getD "") = some m)
    ∧ (∀ st r, pairWise wald expM1 ad layer testLabel groups batchLabel minCellCounts
        sizeFactor inputIsLog keyAdded quickScale constrainModel false
        = Except.ok (st, r) →
        r = none ∧ st.X = ad.X ∧ st.obsRows = ad.obsRows ∧ st.genes = ad.genes
        ∧ st.sparse = ad.sparse
        ∧ (∀ k, k ≠ (if falsyStr keyAdded then "diffxpyPairWise_" ++ testLabel
            else keyAdded.getD "") →
            lookupEntry st.uns k = lookupEntry ad.uns k)
        ∧ ∃ upper m,
          pairWiseUpper wald
              (pairWisePrepare expM1 ad (if falsyStr layer then "X" else layer.getD "X")
                testLabel (lsUseCol testLabel batchLabel sizeFactor) inputIsLog
                (if falsyList groups then uniqueVals ad testLabel else groups.getD []))
              testLabel
              (if falsyList groups then uniqueVals ad testLabel else groups.getD [])
              batchLabel minCellCounts quickScale sizeFactor constrainModel
            = Except.ok upper
          ∧ pairWiseMirror
              (if falsyList groups then uniqueVals ad testLabel else groups.getD [])
              upper
            = Except.ok m
          ∧ lookupEntry st.uns
              (if falsyStr keyAdded then "diffxpyPairWise_" ++ testLabel
                else keyAdded.getD "") = some m) := by
  refine ⟨?_, ?_, ?_, ?_⟩
  · intro st r h
    rw [vsRest_def] at h
    cases hprep : vsRestPrepare expM1 ad (if falsyStr layer then "X" else layer.getD "X")
        testLabel (lsUseCol testLabel batchLabel sizeFactor) inputIsLog
        (if falsyList groups then uniqueVals ad testLabel else groups.getD []) with
    | error e =>
        rw [hprep, exceptBind_error] at h
        exact Except.noConfusion h
    | ok adW =>
        simp only [hprep, exceptBind_ok] at h
        cases hent : vsRestEntries wald adW testLabel
            (if falsyList groups then uniqueVals ad testLabel else groups.getD [])
            batchLabel minCellCounts quickScale sizeFactor constrainModel threads with
        | error e =>
            rw [hent, exceptBind_error] at h
            exact Except.noConfusion h
        | ok entries =>
            simp only [hent, exceptBind_ok] at h
            obtain ⟨hst, hr⟩ := Prod.mk.inj (Except.ok.inj h)
            exact ⟨hst.symm, adW, entries, rfl, hent, hr.symm⟩
  · intro st r h
    rw [pairWise_def] at h
    cases hup : pairWiseUpper wald
        (pairWisePrepare expM1 ad (if falsyStr layer then "X" else layer.getD "X")
          testLabel (lsUseCol testLabel batchLabel sizeFactor) inputIsLog
          (if falsyList groups then uniqueVals ad testLabel else groups.getD []))
        testLabel
        (if falsyList groups then uniqueVals ad testLabel else groups.getD [])
        batchLabel minCellCounts quickScale sizeFactor constrainModel with
    | error e =>
        rw [hup, exceptBind_error] at h
        exact Except.noConfusion h
    | ok upper =>
        simp only [hup, exceptBind_ok] at h
        cases hmir : pairWiseMirror
            (if falsyList groups then uniqueVals ad testLabel else groups.getD [])
            upper with
        | error e =>
            rw [hmir, exceptBind_error] at h
            exact Except.noConfusion h
        | ok full =>
            simp only [hmir, exceptBind_ok] at h
            obtain ⟨hst, hr⟩ := Prod.mk.inj (Except.ok.inj h)
            exact ⟨hst.symm, upper, full, rfl, hmir, hr.symm⟩
  · intro st r h
    rw [vsRest_def] at h
    cases hprep : vsRestPrepare expM1 ad (if falsyStr layer then "X" else layer.getD "X")
        testLabel (lsUseCol testLabel batchLabel sizeFactor) inputIsLog
        (if falsyList groups then uniqueVals ad testLabel else groups.getD []) with
    | error e =>
        rw [hprep, exceptBind_error] at h
        exact Except.noConfusion h
    | ok adW =>
        simp only [hprep, exceptBind_ok] at h
        cases hent : vsRestEntries wald adW testLabel
            (if falsyList groups then uniqueVals ad testLabel else groups.getD [])
            batchLabel minCellCounts quickScale sizeFactor constrainModel threads with
        | error e =>
            rw [hent, exceptBind_error] at h
            exact Except.noConfusion h
        | ok entries =>
            simp only [hent, exceptBind_ok] at h
            have h2 : ({ ad with uns := (updateEntry ad.uns
                (if falsyStr keyAdded then "diffxpyVsRest_" ++ testLabel
                  else keyAdded.getD "") entries) }, (none : Option DeResult))
                = (st, r) := Except.ok.inj h
            obtain ⟨hst, hr⟩ := Prod.mk.inj h2
            refine ⟨hr.symm, ?_, ?_, ?_, ?_, ?_, adW, entries, rfl, hent, ?_⟩
            · rw [← hst]
            · rw [← hst]
            · rw [← hst]
            · rw [← hst]
            · intro k hk
              rw [← hst]
              exact lookupEntry_updateEntry_ne ad.uns _ k _ hk
            · rw [← hst]
              exact lookupEntry_updateEntry_self ad.uns _ _
  · intro st r h
    rw [pairWise_def] at h
    cases hup : pairWiseUpper wald
        (pairWisePrepare expM1 ad (if falsyStr layer then "X" else layer.getD "X")
          testLabel (lsUseCol testLabel batchLabel sizeFactor) inputIsLog
          (if falsyList groups then uniqueVals ad testLabel else groups.getD []))
        testLabel
        (if falsyList groups then uniqueVals ad testLabel else groups.getD [])
        batchLabel minCellCounts quickScale sizeFactor constrainModel with
    | error e =>
        rw [hup, exceptBind_error] at h
        exact Except.noConfusion h
    | ok upper =>
        simp only [hup, exceptBind_ok] at h
        cases hmir : pairWiseMirror
            (if falsyList groups then uniqueVals ad testLabel else groups.getD [])
            upper with
        | error e =>
            rw [hmir, exceptBind_error] at h
            exact Except.noConfusion h
        | ok full =>
            simp only [hmir, exceptBind_ok] at h
            have h2 : ({ ad with uns := (updateEntry ad.uns
                (if falsyStr keyAdded then "diffxpyPairWise_" ++ testLabel
                  else keyAdded.getD "") full) }, (none : Option DeResult))
                = (st, r) := Except.ok.inj h
            obtain ⟨hst, hr⟩ := Prod.mk.inj h2
            refine ⟨hr.symm, ?_, ?_, ?_, ?_, ?_, upper, full, rfl, hmir, ?_⟩
            · rw [← hst]
            · rw [← hst]
            · rw [← hst]
            · rw [← hst]
            · intro k hk
              rw [← hst]
              exact lookupEntry_updateEntry_ne ad.uns _ k _ hk
            · rw [← hst]
              exact lookupEntry_updateEntry_self ad.uns _ _

/-! ## C1 — sequential versus parallel dispatch -/

theorem map_congr_mem {α β : Type} (l : List α) (f g : α → β)
    (h : ∀ a ∈ l, f a = g a) : l.map f = l.map g := by
  induction l with
  | nil => rfl
  | cons x t ih =>
      simp only [List.map_cons]
      rw [h x (List.mem_cons_self x t), ih (fun a ha => h a (List.mem_cons_of_mem _ ha))]

theorem keep_ne_temp : ("keep" : String) ≠ "temp" := by decide

theorem keep_ne_batch_temp (b : String) : ("keep" : String) ≠ b ++ "_" ++ "temp" := by
  intro h
  have h2 := congrArg String.length h
  rw [String.length_append, String.length_append] at h2
  have e1 : ("keep" : String).length = 4 := by decide
  have e2 : ("_" : String).length = 1 := by decide
  have e3 : ("temp" : String).length = 4 := by decide
  rw [e1, e2, e3] at h2
  omega

theorem getFlag_assignCol_self (r : ObsRow) (c : String) (b : Bool) :
    getFlag (assignCol r c (ColVal.flag b)) c = b := by
  rw [getFlag, getColVal_assignCol_self]

theorem getFlag_assignCol_ne (r : ObsRow) (c c2 : String) (v : ColVal)
    (h : c2 ≠ c) :
    getFlag (assignCol r c v) c2 = getFlag r c2 := by
  rw [getFlag, getColVal_assignCol_ne r c c2 v h, getFlag]

theorem getStr_assignCol_flag (r : ObsRow) (c : String) (b : Bool) :
    getStr (assignCol r c (ColVal.flag b)) c = "" := by
  rw [getStr, getColVal_assignCol_self]

/-- Assigning the boolean `keep` column is invisible to every `getStr`
read, provided the row's `keep` column was not a string before. -/
theorem getStr_assign_keep (r : ObsRow) (b : Bool)
    (hk : getStr r "keep" = "") (c : String) :
    getStr (assignCol r "keep" (ColVal.flag b)) c = getStr r c := by
  by_cases h : c = "keep"
  · subst h
    rw [getStr_assignCol_flag, hk]
  · exact getStr_assignCol_ne r "keep" c _ h

theorem getStr_assignCol_congr (r1 r2 : ObsRow) (cn s : String)
    (h : strEqRows r1 r2) :
    strEqRows (assignCol r1 cn (ColVal.str s)) (assignCol r2 cn (ColVal.str s)) := by
  intro c
  by_cases hc : c = cn
  · subst hc
    rw [getStr_assignCol_self, getStr_assignCol_self]
  · rw [getStr_assignCol_ne r1 cn c _ hc, getStr_assignCol_ne r2 cn c _ hc]
    exact h c

theorem maskList_all_true {α : Type} (xs : List α) (ms : List Bool)
    (hlen : xs.length = ms.length) (hall : ∀ b ∈ ms, b = true) :
    maskList xs ms = xs := by
  induction xs generalizing ms with
  | nil => rfl
  | cons x xt ih =>
      cases ms with
      | nil => exact absurd hlen (by simp)
      | cons b t =>
          have hb : b = true := hall b (List.mem_cons_self b t)
          subst hb
          have ih2 := ih t (by simpa using hlen)
            (fun b2 hb2 => hall b2 (List.mem_cons_of_mem _ hb2))
          simp only [maskList] at ih2 ⊢
          rw [List.zip_cons_cons, List.filter_cons_of_pos rfl, List.map_cons, ih2]

theorem forall₂_strEq_of_map (l : List ObsRow) (f g : ObsRow → ObsRow)
    (h : ∀ r ∈ l, strEqRows (f r) (g r)) :
    List.Forall₂ strEqRows (l.map f) (l.map g) := by
  induction l with
  | nil => exact List.Forall₂.nil
  | cons r t ih =>
      exact List.Forall₂.cons (h r (List.mem_cons_self r t))
        (ih (fun r2 h2 => h r2 (List.mem_cons_of_mem _ h2)))

theorem forall₂_strEq_map (l1 l2 : List ObsRow) (h : List.Forall₂ strEqRows l1 l2)
    (f g : ObsRow → ObsRow)
    (hfg : ∀ r1 r2, strEqRows r1 r2 → strEqRows (f r1) (g r2)) :
    List.Forall₂ strEqRows (l1.map f) (l2.map g) := by
  induction h with
  | nil => exact List.Forall₂.nil
  | cons hr ht ih => exact List.Forall₂.cons (hfg _ _ hr) ih

theorem map_getStr_of_forall₂ (l1 l2 : List ObsRow)
    (h : List.Forall₂ strEqRows l1 l2) (c : String) :
    l1.map (fun r => getStr r c) = l2.map (fun r => getStr r c) := by
  induction h with
  | nil => rfl
  | cons hr ht ih =>
      simp only [List.map_cons]
      rw [hr c, ih]

/-- `waldInputOf` only reads the gene list, the matrix and `getStr` values
of the annotation rows. -/
theorem waldInputOf_congr_rows (ad1 ad2 : AdM) (k : String) (bl : Option String)
    (qs : Bool) (sf : Option String) (cm : Bool)
    (hg : ad1.genes = ad2.genes) (hX : ad1.X = ad2.X)
    (hrows : List.Forall₂ strEqRows ad1.obsRows ad2.obsRows) :
    waldInputOf ad1 k bl qs sf cm = waldInputOf ad2 k bl qs sf cm := by
  have htv : ∀ c, ad1.obsRows.map (fun r => getStr r c)
      = ad2.obsRows.map (fun r => getStr r c) :=
    fun c => map_getStr_of_forall₂ _ _ hrows c
  have hbv : bl.map (fun b => ad1.obsRows.map (fun r => getStr r b))
      = bl.map (fun b => ad2.obsRows.map (fun r => getStr r b)) := by
    cases bl with
    | none => rfl
    | some b => exact congrArg Option.some (htv b)
  unfold waldInputOf
  rw [hg, hX, htv k, hbv]

theorem testTwoSample_congr (wald : WaldInput → Df) (ad1 ad2 : AdM) (k : String)
    (bl : Option String) (qs : Bool) (sf : Option String) (cm : Bool)
    (h : waldInputOf ad1 k bl qs sf cm = waldInputOf ad2 k bl qs sf cm) :
    testTwoSample wald ad1 k bl qs sf cm = testTwoSample wald ad2 k bl qs sf cm := by
  have hv : ad1.obsRows.map (fun r => getStr r k)
      = ad2.obsRows.map (fun r => getStr r k) :=
    congrArg WaldInput.testVals h
  unfold testTwoSample
  rw [hv, h]

theorem foldlM_congr_except {α β : Type} (l : List α)
    (f g : β → α → Except String β)
    (h : ∀ acc a, a ∈ l → f acc a = g acc a) :
    ∀ b, l.foldlM f b = l.foldlM g b := by
  induction l with
  | nil => intro b; rfl
  | cons x xt ih =>
      intro b
      rw [List.foldlM_cons, List.foldlM_cons, h b x (List.mem_cons_self x xt)]
      cases hg2 : g b x with
      | error e => rfl
      | ok b2 =>
          rw [exceptBind_ok, exceptBind_ok]
          exact ih (fun acc a ha => h acc a (List.mem_cons_of_mem _ ha)) b2

/-- Unfolding lemma: the Format Adapter with default `otherComp` and
`subsetFlag = true` is the subset-filter-assign pipeline closed by the
optional combined batch column. -/
theorem parseAd_subset_eq (ad : AdM) (testLabel testComp keyAdded : String)
    (batchLabel : Option String) (minCellCounts : Nat) :
    parseAdToDiffxpyFormat ad testLabel testComp none batchLabel minCellCounts keyAdded true
      = batchCombine batchLabel keyAdded
          (assignColAll
            (filterGenes
              (subsetCells ad (fun r =>
                (testComp :: (uniqueVals ad testLabel).filter (fun x => x ≠ testComp)).contains
                  (getStr r testLabel)))
              minCellCounts)
            keyAdded
            (fun r => ColVal.str (if getStr r testLabel == testComp then "1" else "0"))) := by
  cases batchLabel <;> rfl

/-- Unfolding lemma: the Format Adapter with default `otherComp` and
`subsetFlag = false` assigns the boolean `keep` column instead of
subsetting. -/
theorem parseAd_nosubset_eq (ad : AdM) (testLabel testComp keyAdded : String)
    (batchLabel : Option String) (minCellCounts : Nat) :
    parseAdToDiffxpyFormat ad testLabel testComp none batchLabel minCellCounts keyAdded false
      = batchCombine batchLabel keyAdded
          (assignColAll
            (assignColAll ad "keep"
              (fun r => ColVal.flag
                ((testComp :: (uniqueVals ad testLabel).filter (fun x => x ≠ testComp)).contains
                  (getStr r testLabel))))
            keyAdded
            (fun r => ColVal.str (if getStr r testLabel == testComp then "1" else "0"))) := by
  cases batchLabel <;> rfl

theorem batchCombine_genes (bl : Option String) (k : String) (ad : AdM) :
    (batchCombine bl k ad).genes = ad.genes := by
  cases bl <;> rfl

theorem batchCombine_assign_genes (bl : Option String) (k c : String)
    (f : ObsRow → ColVal) (x : AdM) :
    (batchCombine bl k (assignColAll x c f)).genes = x.genes := by
  cases bl <;> rfl

theorem batchCombine_assign_X (bl : Option String) (k c : String)
    (f : ObsRow → ColVal) (x : AdM) :
    (batchCombine bl k (assignColAll x c f)).X = x.X := by
  cases bl <;> rfl

theorem worker_final_genes (x : AdM) (mtx : List (List Rat)) (m ks : List Bool) :
    (subsetGenes (subsetCellsMask { x with X := mtx, sparse := false } m) ks).genes
      = maskList x.genes ks := rfl

theorem worker_final_X (x : AdM) (mtx : List (List Rat)) (m ks : List Bool) :
    (subsetGenes (subsetCellsMask { x with X := mtx, sparse := false } m) ks).X
      = (maskList mtx m).map (fun row => maskList row ks) := rfl

theorem worker_final_obsRows (x : AdM) (mtx : List (List Rat)) (m ks : List Bool) :
    (subsetGenes (subsetCellsMask { x with X := mtx, sparse := false } m) ks).obsRows
      = maskList x.obsRows m := rfl

theorem filterGenes_genes (x : AdM) (n : Nat) :
    (filterGenes x n).genes = maskList x.genes (filterGenesMask x n) := rfl

theorem filterGenes_X (x : AdM) (n : Nat) :
    (filterGenes x n).X = x.X.map (fun row => maskList row (filterGenesMask x n)) := rfl

/-- `batchCombine` preserves pointwise `getStr` equality of the annotation
rows: the combined column's value is computed from `getStr` reads. -/
theorem batchCombine_rows_congr (bl : Option String) (k : String) (adA adB : AdM)
    (h : List.Forall₂ strEqRows adA.obsRows adB.obsRows) :
    List.Forall₂ strEqRows (batchCombine bl k adA).obsRows (batchCombine bl k adB).obsRows := by
  cases bl with
  | none => exact h
  | some b =>
      simp only [batchCombine, assignColAll]
      refine forall₂_strEq_map _ _ h _ _ ?_
      intro r1 r2 hr
      have hv : getStr r1 b ++ "_" ++ getStr r1 k = getStr r2 b ++ "_" ++ getStr r2 k := by
        rw [hr b, hr k]
      rw [hv]
      exact getStr_assignCol_congr r1 r2 _ _ hr

/-- Unfolding lemma for one sequential `vsRest` iteration. -/
theorem vsRestSeqGroup_def (wald : WaldInput → Df) (adW : AdM) (testLabel : String)
    (batchLabel : Option String) (minCellCounts : Nat) (quickScale : Bool)
    (sizeFactor : Option String) (constrainModel : Bool) (g : String) :
    vsRestSeqGroup wald adW testLabel batchLabel minCellCounts quickScale
        sizeFactor constrainModel g
      = testTwoSample wald
          (parseAdToDiffxpyFormat adW testLabel g none batchLabel minCellCounts "temp" true)
          "temp" batchLabel quickScale sizeFactor constrainModel := rfl

/-- Unfolding lemma for the parallel worker run with a shared buffer. -/
theorem _getDiffxpy_shm_def (wald : WaldInput → Df) (ad : AdM)
    (testLabel testComp : String) (batchLabel : Option String)
    (minCellCounts : Nat) (quickScale : Bool) (sizeFactor : Option String)
    (constrainModel : Bool) (mtx : List (List Rat)) :
    _getDiffxpy wald ad testLabel testComp batchLabel minCellCounts quickScale
        sizeFactor constrainModel (some mtx)
      = testTwoSample wald
          (subsetGenes
            (subsetCellsMask
              { parseAdToDiffxpyFormat ad testLabel testComp none batchLabel
                  minCellCounts "temp" false with X := mtx, sparse := false }
              ((parseAdToDiffxpyFormat ad testLabel testComp none batchLabel
                  minCellCounts "temp" false).obsRows.map (fun r => getFlag r "keep")))
            ((List.range (parseAdToDiffxpyFormat ad testLabel testComp none batchLabel
                minCellCounts "temp" false).genes.length).map
              (fun j => decide ((minCellCounts : Rat) <
                ((maskList mtx ((parseAdToDiffxpyFormat ad testLabel testComp none batchLabel
                    minCellCounts "temp" false).obsRows.map (fun r => getFlag r "keep"))).map
                  (fun row => colEntry row j)).sum))))
          "temp" batchLabel quickScale sizeFactor constrainModel := rfl

/-- The heart of the C1 analysis: on a working collection whose rows carry
no string `keep` column and whose two gene filters agree, one sequential
`vsRest` iteration and one parallel worker run coincide for every group. -/
theorem vsRest_group_paths_agree (wald : WaldInput → Df) (adW : AdM)
    (testLabel : String) (batchLabel : Option String) (minCellCounts : Nat)
    (quickScale : Bool) (sizeFactor : Option String) (constrainModel : Bool)
    (g : String)
    (hlen : adW.obsRows.length = adW.X.length)
    (hkeep : ∀ r ∈ adW.obsRows, getStr r "keep" = "")
    (hmask : filterGenesMask adW minCellCounts = parGeneMask adW minCellCounts) :
    vsRestSeqGroup wald { adW with sparse := false } testLabel batchLabel
        minCellCounts quickScale sizeFactor constrainModel g
      = _getDiffxpy wald { adW with X := zerosLike adW.X, sparse := true }
          testLabel g batchLabel minCellCounts quickScale sizeFactor
          constrainModel (some adW.X) := by
  rw [vsRestSeqGroup_def, _getDiffxpy_shm_def,
    parseAd_subset_eq { adW with sparse := false } testLabel g "temp"
      batchLabel minCellCounts,
    parseAd_nosubset_eq { adW with X := zerosLike adW.X, sparse := true }
      testLabel g "temp" batchLabel minCellCounts,
    subsetCells_eq_self { adW with sparse := false }
      (fun r => (g :: (uniqueVals { adW with sparse := false } testLabel).filter
        (fun x => x ≠ g)).contains (getStr r testLabel))
      hlen
      (parseAd_default_keeps_all { adW with sparse := false } testLabel g)]
  have hKM : (batchCombine batchLabel "temp"
        (assignColAll
          (assignColAll { adW with X := zerosLike adW.X, sparse := true } "keep"
            (fun r => ColVal.flag
              ((g :: (uniqueVals { adW with X := zerosLike adW.X, sparse := true }
                  testLabel).filter (fun x => x ≠ g)).contains (getStr r testLabel))))
          "temp"
          (fun r => ColVal.str (if getStr r testLabel == g then "1" else "0")))).obsRows.map
        (fun r => getFlag r "keep")
      = adW.obsRows.map (fun _ => true) := by
    cases batchLabel with
    | none =>
        simp only [batchCombine, assignColAll, List.map_map]
        refine map_congr_mem _ _ _ ?_
        intro r hr
        simp only [Function.comp_apply]
        rw [getFlag_assignCol_ne _ "temp" "keep" _ keep_ne_temp,
          getFlag_assignCol_self]
        exact parseAd_default_keeps_all
          { adW with X := zerosLike adW.X, sparse := true } testLabel g r hr
    | some b =>
        simp only [batchCombine, assignColAll, List.map_map]
        refine map_congr_mem _ _ _ ?_
        intro r hr
        simp only [Function.comp_apply]
        rw [getFlag_assignCol_ne _ (b ++ "_" ++ "temp") "keep" _ (keep_ne_batch_temp b),
          getFlag_assignCol_ne _ "temp" "keep" _ keep_ne_temp,
          getFlag_assignCol_self]
        exact parseAd_default_keeps_all
          { adW with X := zerosLike adW.X, sparse := true } testLabel g r hr
  have hmtx : maskList adW.X (adW.obsRows.map (fun _ => true)) = adW.X := by
    refine maskList_all_true _ _ ?_ ?_
    · rw [List.length_map]
      exact hlen.symm
    · intro b2 hb2
      obtain ⟨a, _, h2⟩ := List.mem_map.mp hb2
      exact h2.symm
  have hPg : (batchCombine batchLabel "temp"
        (assignColAll
          (assignColAll { adW with X := zerosLike adW.X, sparse := true } "keep"
            (fun r => ColVal.flag
              ((g :: (uniqueVals { adW with X := zerosLike adW.X, sparse := true }
                  testLabel).filter (fun x => x ≠ g)).contains (getStr r testLabel))))
          "temp"
          (fun r => ColVal.str (if getStr r testLabel == g then "1" else "0")))).genes
      = adW.genes := by
    rw [batchCombine_assign_genes]
    rfl
  have hPRlen : (batchCombine batchLabel "temp"
        (assignColAll
          (assignColAll { adW with X := zerosLike adW.X, sparse := true } "keep"
            (fun r => ColVal.flag
              ((g :: (uniqueVals { adW with X := zerosLike adW.X, sparse := true }
                  testLabel).filter (fun x => x ≠ g)).contains (getStr r testLabel))))
          "temp"
          (fun r => ColVal.str (if getStr r testLabel == g then "1" else "0")))).obsRows.length
      = adW.obsRows.length := by
    cases batchLabel <;> simp [batchCombine, assignColAll, List.length_map]
  have hmrowsP : maskList (batchCombine batchLabel "temp"
        (assignColAll
          (assignColAll { adW with X := zerosLike adW.X, sparse := true } "keep"
            (fun r => ColVal.flag
              ((g :: (uniqueVals { adW with X := zerosLike adW.X, sparse := true }
                  testLabel).filter (fun x => x ≠ g)).contains (getStr r testLabel))))
          "temp"
          (fun r => ColVal.str (if getStr r testLabel == g then "1" else "0")))).obsRows
        (adW.obsRows.map (fun _ => true))
      = (batchCombine batchLabel "temp"
        (assignColAll
          (assignColAll { adW with X := zerosLike adW.X, sparse := true } "keep"
            (fun r => ColVal.flag
              ((g :: (uniqueVals { adW with X := zerosLike adW.X, sparse := true }
                  testLabel).filter (fun x => x ≠ g)).contains (getStr r testLabel))))
          "temp"
          (fun r => ColVal.str (if getStr r testLabel == g then "1" else "0")))).obsRows := by
    refine maskList_all_true _ _ ?_ ?_
    · rw [List.length_map]
      exact hPRlen
    · intro b2 hb2
      obtain ⟨a, _, h2⟩ := List.mem_map.mp hb2
      exact h2.symm
  rw [hKM, hmtx, hPg]
  have hparG : (List.range adW.genes.length).map
      (fun j => decide ((minCellCounts : Rat) <
        (adW.X.map (fun row => colEntry row j)).sum))
      = parGeneMask adW minCellCounts := rfl
  rw [hparG, ← hmask]
  apply testTwoSample_congr
  have e1 : ({ adW with sparse := false } : AdM).genes = adW.genes := rfl
  have e2 : filterGenesMask { adW with sparse := false } minCellCounts
      = filterGenesMask adW minCellCounts := rfl
  have e3 : ({ adW with sparse := false } : AdM).X = adW.X := rfl
  refine waldInputOf_congr_rows _ _ _ _ _ _ _ ?_ ?_ ?_
  · rw [batchCombine_assign_genes, worker_final_genes, filterGenes_genes, hPg, e1, e2]
  · rw [batchCombine_assign_X, worker_final_X, filterGenes_X, hmtx, e3, e2]
  · rw [worker_final_obsRows, hmrowsP]
    have hbase : List.Forall₂ strEqRows
        (assignColAll (filterGenes { adW with sparse := false } minCellCounts) "temp"
          (fun r => ColVal.str (if getStr r testLabel == g then "1" else "0"))).obsRows
        (assignColAll
          (assignColAll { adW with X := zerosLike adW.X, sparse := true } "keep"
            (fun r => ColVal.flag
              ((g :: (uniqueVals { adW with X := zerosLike adW.X, sparse := true }
                  testLabel).filter (fun x => x ≠ g)).contains (getStr r testLabel))))
          "temp"
          (fun r => ColVal.str (if getStr r testLabel == g then "1" else "0"))).obsRows := by
      have hA1 : (assignColAll (filterGenes { adW with sparse := false } minCellCounts) "temp"
            (fun r => ColVal.str (if getStr r testLabel == g then "1" else "0"))).obsRows
          = adW.obsRows.map (fun r => assignCol r "temp"
              (ColVal.str (if getStr r testLabel == g then "1" else "0"))) := rfl
      have hA2 : (assignColAll
            (assignColAll { adW with X := zerosLike adW.X, sparse := true } "keep"
              (fun r => ColVal.flag
                ((g :: (uniqueVals { adW with X := zerosLike adW.X, sparse := true }
                    testLabel).filter (fun x => x ≠ g)).contains (getStr r testLabel))))
            "temp"
            (fun r => ColVal.str (if getStr r testLabel == g then "1" else "0"))).obsRows
          = (adW.obsRows.map (fun r => assignCol r "keep"
              (ColVal.flag
                ((g :: (uniqueVals { adW with X := zerosLike adW.X, sparse := true }
                    testLabel).filter (fun x => x ≠ g)).contains (getStr r testLabel))))).map
              (fun r => assignCol r "temp"
                (ColVal.str (if getStr r testLabel == g then "1" else "0"))) := rfl
      rw [hA1, hA2, List.map_map]
      refine forall₂_strEq_of_map _ _ _ ?_
      intro r hr c
      simp only [Function.comp_apply]
      rw [getStr_assign_keep r _ (hkeep r hr) testLabel]
      exact getStr_assignCol_congr r _ "temp" _
        (fun c2 => (getStr_assign_keep r _ (hkeep r hr) c2).symm) c
    exact batchCombine_rows_congr batchLabel "temp" _ _ hbase

/-- On a working collection satisfying the C1 side conditions, the
sequential and parallel `vsRest` dispatches build the same mapping, for any
thread count. -/
theorem vsRestEntries_threads_agree (wald : WaldInput → Df) (adW : AdM)
    (testLabel : String) (groupsR : List String) (batchLabel : Option String)
    (minCellCounts : Nat) (quickScale : Bool) (sizeFactor : Option String)
    (constrainModel : Bool) (threads : Nat)
    (hlen : adW.obsRows.length = adW.X.length)
    (hkeep : ∀ r ∈ adW.obsRows, getStr r "keep" = "")
    (hmask : filterGenesMask adW minCellCounts = parGeneMask adW minCellCounts) :
    vsRestEntries wald adW testLabel groupsR batchLabel minCellCounts quickScale
        sizeFactor constrainModel 1
      = vsRestEntries wald adW testLabel groupsR batchLabel minCellCounts quickScale
        sizeFactor constrainModel threads := by
  unfold vsRestEntries
  by_cases ht : 1 < threads
  · rw [if_neg (by omega : ¬ (1 : Nat) < 1), if_pos ht]
    refine foldlM_congr_except _ _ _ ?_ _
    intro acc g2 _
    simp only [vsRest_group_paths_agree wald adW testLabel batchLabel minCellCounts
      quickScale sizeFactor constrainModel g2 hlen hkeep hmask]
  · rw [if_neg (by omega : ¬ (1 : Nat) < 1), if_neg ht]

attribute [local semireducible] Rat.add in
/-- C1 (counterexample): `vsRest` with `threads = 1` and with `threads = 4`
disagree on a two-cell collection whose single gene is detected in one cell
(nonzero-cell count 1) with expression sum 3, at `minCellCounts = 2`: the
sequential path's `sc.pp.filter_genes` drops the gene (1 < 2 detecting
cells) while the parallel worker's sum filter keeps it (3 > 2), so the
per-group tables differ — refuting the claim that the two paths produce
identical result tables for every collection. -/
theorem C1_threads_counterexample :
    vsRest waldGenes (fun x => x) adC1 none "cls" none none 2 none false none
        true false 1 true
      ≠ vsRest waldGenes (fun x => x) adC1 none "cls" none none 2 none false none
        true false 4 true := by
  decide

/-- C1 (amended): whenever the prepared working collection's rows carry no
string-valued `keep` column and the two paths' gene filters agree on it
(`sc.pp.filter_genes`' detected-cell-count mask equals the worker's
expression-sum mask), `vsRest` with `threads = 1` equals `vsRest` with any
other thread count — in particular `threads = 4` — on the same input:
same per-group result tables, and the mapping is keyed in group-list order
independent of task completion order. -/
theorem C1_threads_agree (wald : WaldInput → Df) (expM1 : Rat → Rat) (ad : AdM)
    (layer : Option String) (testLabel : String) (groups : Option (List String))
    (batchLabel : Option String) (minCellCounts : Nat) (sizeFactor : Option String)
    (inputIsLog : Bool) (keyAdded : Option String) (quickScale constrainModel : Bool)
    (threads : Nat) (copyFlag : Bool)
    (hw : ∀ adW, vsRestPrepare expM1 ad (if falsyStr layer then "X" else layer.getD "X")
          testLabel (lsUseCol testLabel batchLabel sizeFactor) inputIsLog
          (if falsyList groups then uniqueVals ad testLabel else groups.getD [])
        = Except.ok adW →
      adW.obsRows.length = adW.X.length
        ∧ (∀ r ∈ adW.obsRows, getStr r "keep" = "")
        ∧ filterGenesMask adW minCellCounts = parGeneMask adW minCellCounts) :
    vsRest wald expM1 ad layer testLabel groups batchLabel minCellCounts sizeFactor
        inputIsLog keyAdded quickScale constrainModel 1 copyFlag
      = vsRest wald expM1 ad layer testLabel groups batchLabel minCellCounts sizeFactor
        inputIsLog keyAdded quickScale constrainModel threads copyFlag := by
  rw [vsRest_def, vsRest_def]
  cases hprep : vsRestPrepare expM1 ad (if falsyStr layer then "X" else layer.getD "X")
      testLabel (lsUseCol testLabel batchLabel sizeFactor) inputIsLog
      (if falsyList groups then uniqueVals ad testLabel else groups.getD []) with
  | error e => rfl
  | ok adW =>
      obtain ⟨h1, h2, h3⟩ := hw adW hprep
      rw [exceptBind_ok, exceptBind_ok,
        vsRestEntries_threads_agree wald adW testLabel _ batchLabel minCellCounts
          quickScale sizeFactor constrainModel threads h1 h2 h3]

attribute [local semireducible] Rat.add in
/-- C1 (witness): on the concrete two-cell collection with
`minCellCounts = 1` the side conditions hold (the single gene is detected
in one cell and has sum 3, so both filters keep it) and the theorem yields
the agreement of the `threads = 1` and `threads = 4` runs. -/
theorem C1_threads_agree_witness :
    vsRest waldGenes (fun x => x) adC1 none "cls" none none 1 none false none
        true false 1 true
      = vsRest waldGenes (fun x => x) adC1 none "cls" none none 1 none false none
        true false 4 true := by
  refine C1_threads_agree waldGenes (fun x => x) adC1 none "cls" none none 1 none
    false none true false 4 true ?_
  intro adW h
  have h0 : (Except.ok adC1 : Except String AdM) = Except.ok adW := by
    rw [← h]
    decide
  obtain rfl : adC1 = adW := Except.ok.inj h0
  exact ⟨by decide, by decide, by decide⟩

/-! ## C3 — pairWise clearance-count resolution -/

/-- On well-formed entries, the accumulating loop of `getMarker.__pairWise`
produces the block list and the recorded background names. -/
theorem markerPairWise_fold (qvalue log2fc mean : Rat) :
    ∀ (es : DeResult) (acc : List Df × List String),
      (∀ p ∈ es, pwEntryOk p = true) →
      (es.foldlM
        (fun (st : List Df × List String) p =>
          if p.1 == "__cat" then pure st
          else
            match p.2 with
            | UnsVal.str _ => Except.error "stored value is not a table"
            | UnsVal.df d =>
                match reTestedCluster p.1, reBgCluster p.1 with
                | some tc, some bc =>
                    let d1 := insertBgCluster bc (insertTestedCluster tc d)
                    pure (st.1 ++ [twoSampleFilter qvalue log2fc mean d1], st.2 ++ [bc])
                | _, _ => Except.error "IndexError: list index out of range")
        acc)
      = Except.ok (acc.1 ++ pairWiseBlocks qvalue log2fc mean es,
          acc.2 ++ pairWiseBgs es) := by
  intro es
  induction es with
  | nil =>
      intro acc _
      simp [pairWiseBlocks, pairWiseBgs]
      rfl
  | cons p rest ih =>
      intro acc hwf
      rw [List.foldlM_cons]
      by_cases hp : (p.1 == "__cat") = true
      · have hb1 : pairWiseBlocks qvalue log2fc mean (p :: rest)
            = pairWiseBlocks qvalue log2fc mean rest := by
          unfold pairWiseBlocks
          rw [List.filterMap_cons_none (by simp [hp])]
        have hb2 : pairWiseBgs (p :: rest) = pairWiseBgs rest := by
          unfold pairWiseBgs
          rw [List.filterMap_cons_none (by simp [hp])]
        rw [hb1, hb2, if_pos hp]
        exact ih acc (fun q hq => hwf q (List.mem_cons_of_mem _ hq))
      · have hpe := hwf p (List.mem_cons_self p rest)
        simp only [pwEntryOk, hp, Bool.false_or] at hpe
        cases hval : p.2 with
        | str s =>
            rw [hval] at hpe
            exact absurd hpe (by simp)
        | df d =>
            rw [hval] at hpe
            simp only [Bool.and_eq_true, Option.isSome_iff_exists] at hpe
            obtain ⟨⟨tc, htc⟩, ⟨bc, hbc⟩⟩ := hpe
            have hb1 : pairWiseBlocks qvalue log2fc mean (p :: rest)
                = twoSampleFilter qvalue log2fc mean
                    (insertBgCluster bc (insertTestedCluster tc d))
                  :: pairWiseBlocks qvalue log2fc mean rest := by
              unfold pairWiseBlocks
              rw [List.filterMap_cons_some]
              simp [hp, hval, htc, hbc]
            have hb2 : pairWiseBgs (p :: rest) = bc :: pairWiseBgs rest := by
              unfold pairWiseBgs
              rw [List.filterMap_cons_some]
              simp [hp, hval, htc, hbc]
            rw [hb1, hb2, if_neg hp, htc, hbc]
            have hih := ih (acc.1 ++ [twoSampleFilter qvalue log2fc mean
                (insertBgCluster bc (insertTestedCluster tc d))], acc.2 ++ [bc])
              (fun q hq => hwf q (List.mem_cons_of_mem _ hq))
            show rest.foldlM
                (fun (st : List Df × List String) p =>
                  if p.1 == "__cat" then pure st
                  else
                    match p.2 with
                    | UnsVal.str _ => Except.error "stored value is not a table"
                    | UnsVal.df d =>
                        match reTestedCluster p.1, reBgCluster p.1 with
                        | some tc, some bc =>
                            let d1 := insertBgCluster bc (insertTestedCluster tc d)
                            pure (st.1 ++ [twoSampleFilter qvalue log2fc mean d1],
                              st.2 ++ [bc])
                        | _, _ => Except.error "IndexError: list index out of range")
                (acc.1 ++ [twoSampleFilter qvalue log2fc mean
                    (insertBgCluster bc (insertTestedCluster tc d))], acc.2 ++ [bc])
              = Except.ok (acc.1 ++ (twoSampleFilter qvalue log2fc mean
                    (insertBgCluster bc (insertTestedCluster tc d))
                  :: pairWiseBlocks qvalue log2fc mean rest),
                  acc.2 ++ (bc :: pairWiseBgs rest))
            rw [hih]
            simp

/-- C3 (counterexample): over the full four-group pairWise mapping `pwMap4`,
the pair (tested group `A`, gene `g`) clears the cutoffs against 2 of its 3
background groups, yet `getMarker` with `detectedCounts = -1` returns the
empty aggregate: the code resolves the cutoff to
`len(set(all recorded background names)) - 1 = 4 - 1 = 3`, not to
`3 - 1 = 2` as the claim's reading would have it. -/
theorem C3_detected_counts_counterexample :
    getMarker adPW4 "k" 1 0 0 (-1) = Except.ok (MarkerOut.pw []) := by
  decide

/-- C3 (amended): for a non-positive `detectedCounts` over any well-formed
pairWise mapping, `getMarker.__pairWise` keeps exactly the aggregated
(tested group, gene) rows whose clearance count is at least
`(number of distinct background names recorded across the whole mapping) +
detectedCounts` — over a full mapping on 4 groups that number is 4 (every
group appears as a background of the others), so `-1` demands clearance
against all 3 of a tested group's backgrounds, not at least 2 of 3. -/
theorem C3_detected_counts_resolution (entries : DeResult)
    (qvalue log2fc mean : Rat) (detectedCounts : Int) (out : List AggRow)
    (hwf : ∀ p ∈ entries, pwEntryOk p = true)
    (hdc : detectedCounts ≤ 0)
    (h : markerPairWise entries qvalue log2fc mean detectedCounts = Except.ok out) :
    out = (pairWiseAgg qvalue log2fc mean entries).filter
        (fun r => decide ((((uniqueFirst (pairWiseBgs entries)).length : Int)
          + detectedCounts) ≤ (r.counts : Int)))
      ∧ ∀ r ∈ out,
        (((uniqueFirst (pairWiseBgs entries)).length : Int) + detectedCounts)
          ≤ (r.counts : Int) := by
  unfold markerPairWise at h
  rw [markerPairWise_fold qvalue log2fc mean entries
    (([], []) : List Df × List String) hwf, exceptBind_ok] at h
  simp only [List.nil_append] at h
  unfold pdConcat at h
  by_cases hemp : (pairWiseBlocks qvalue log2fc mean entries).isEmpty = true
  · rw [if_pos hemp, exceptBind_error] at h
    exact Except.noConfusion h
  · rw [if_neg hemp, exceptBind_ok, if_pos hdc] at h
    have hout := Except.ok.inj h
    constructor
    · exact hout.symm
    · intro r hr
      rw [← hout] at hr
      exact of_decide_eq_true (List.mem_filter.mp hr).2

/-- C3 (witness): the amended theorem applied to the concrete four-group
mapping: the resolution rule gives `4 - 1 = 3`, and the single aggregated
row (clearing 2 backgrounds) is filtered out. -/
theorem C3_detected_counts_witness :
    (∀ p ∈ pwMap4, pwEntryOk p = true)
    ∧ (-1 : Int) ≤ 0
    ∧ markerPairWise pwMap4 1 0 0 (-1) = Except.ok []
    ∧ (([] : List AggRow) = (pairWiseAgg 1 0 0 pwMap4).filter
        (fun r => decide ((((uniqueFirst (pairWiseBgs pwMap4)).length : Int)
          + (-1)) ≤ (r.counts : Int)))
      ∧ ∀ r ∈ ([] : List AggRow),
        (((uniqueFirst (pairWiseBgs pwMap4)).length : Int) + (-1))
          ≤ (r.counts : Int)) :=
  ⟨by decide, by decide, by decide,
    C3_detected_counts_resolution pwMap4 1 0 0 (-1) [] (by decide) (by decide)
      (by decide)⟩

end DiffxpyModel
